import Mathlib

/-
Verification of the pub/sub message broker core (files pubsub.go, ringbuffer.go,
models.go, websocket.go of the repository). The Go code is shallowly embedded:
mutation of the receiver becomes explicit state passing, Go maps become
association lists over String keys, Go channels become bounded queues carried in
the state, and every call to time.Now() becomes an explicit Nat parameter.
-/

set_option autoImplicit false

namespace PubSub

/-- DefaultBufferSize from pubsub.go: ring buffer size per subscriber. -/
def DefaultBufferSize : Nat := 100

/-- TopicHistoryBufferSize from pubsub.go: ring buffer size per topic history. -/
def TopicHistoryBufferSize : Nat := 1000

/-- ErrorData from models.go: an error code and a human message. -/
structure ErrorData where
  code : String
  message : String
deriving DecidableEq, Inhabited

/-- The payload of a message is an arbitrary JSON value in Go (interface-typed).
The values that actually flow through the system are: opaque client-supplied
JSON, an ErrorData (error frames converted in sendMessage), a status map from
ack conversion, and plain strings (pong and topic_deleted notices). -/
inductive Payload where
  | json (s : String)
  | errData (e : ErrorData)
  | statusVal (s : String)
  | text (s : String)
deriving DecidableEq, Inhabited

/-- MessageData from models.go. -/
structure MessageData where
  id : String
  payload : Payload
deriving DecidableEq, Inhabited

/-- EventResponse from models.go; the element type of ring buffers and write
channels. The Go zero value corresponds to the derived default. -/
structure EventResponse where
  type : String
  topic : String
  message : MessageData
  timestamp : Nat
deriving DecidableEq, Inhabited

/-- A Go buffered channel of EventResponse: current contents plus capacity.
A non-blocking send (select with default) appends when there is room. -/
structure Chan where
  buf : List EventResponse
  cap : Nat
deriving DecidableEq, Inhabited

/-- Non-blocking send on a buffered channel (the select/default idiom used
throughout pubsub.go and websocket.go). Returns whether the send succeeded. -/
def Chan.offer (ch : Chan) (e : EventResponse) : Bool × Chan :=
  if ch.buf.length < ch.cap then (true, { ch with buf := ch.buf ++ [e] }) else (false, ch)

/-! ## RingBuffer (ringbuffer.go) -/

/-- RingBuffer from ringbuffer.go: bounded circular buffer dropping oldest on
overflow. The mutex is irrelevant in the sequential embedding. -/
structure RingBuffer where
  buffer : Array EventResponse
  head : Nat
  tail : Nat
  size : Nat
  capacity : Nat
  full : Bool
deriving DecidableEq, Inhabited

/-- NewRingBuffer: make([]EventResponse, capacity) yields zero values. -/
def RingBuffer.new (capacity : Nat) : RingBuffer :=
  { buffer := Array.mkArray capacity default
    head := 0, tail := 0, size := 0, capacity, full := false }

/-- Push from ringbuffer.go: write at head, advance head; when full advance
tail (drop oldest), otherwise grow size and set full when capacity reached. -/
def RingBuffer.push (rb : RingBuffer) (message : EventResponse) : RingBuffer :=
  let buffer := rb.buffer.setD rb.head message
  let head := (rb.head + 1) % rb.capacity
  if rb.full then
    { rb with buffer, head, tail := (rb.tail + 1) % rb.capacity }
  else
    let size := rb.size + 1
    { rb with buffer, head, size, full := size = rb.capacity }

/-- Pop from ringbuffer.go: remove the oldest message; none when empty. -/
def RingBuffer.pop (rb : RingBuffer) : Option EventResponse × RingBuffer :=
  if rb.size = 0 then (none, rb)
  else
    (some (rb.buffer.getD rb.tail default),
     { rb with tail := (rb.tail + 1) % rb.capacity, size := rb.size - 1, full := false })

/-- The chronological read loop shared by PopAll: element i is
buffer[(tail+i) % capacity], for i < size. This is the observable content of
the buffer in FIFO order. -/
def RingBuffer.toList (rb : RingBuffer) : List EventResponse :=
  (List.range rb.size).map (fun i => rb.buffer.getD ((rb.tail + i) % rb.capacity) default)

/-- PopAll from ringbuffer.go: all messages in chronological order, then the
buffer is reset. -/
def RingBuffer.popAll (rb : RingBuffer) : List EventResponse × RingBuffer :=
  if rb.size = 0 then ([], rb)
  else (rb.toList, { rb with head := 0, tail := 0, size := 0, full := false })

/-- GetLastN from ringbuffer.go. n is a Go int (may be negative), so it is
embedded as Int; start is computed as an int and wrapped once by capacity. -/
def RingBuffer.getLastN (rb : RingBuffer) (n : Int) : List EventResponse :=
  if rb.size = 0 ∨ n ≤ 0 then []
  else
    let count : Nat := if (rb.size : Int) < n then rb.size else n.toNat
    let start0 : Int := (rb.head : Int) - (count : Int)
    let start : Int := if start0 < 0 then start0 + (rb.capacity : Int) else start0
    (List.range count).map (fun i => rb.buffer.getD ((start.toNat + i) % rb.capacity) default)

/-- Clear from ringbuffer.go. -/
def RingBuffer.clear (rb : RingBuffer) : RingBuffer :=
  { rb with head := 0, tail := 0, size := 0, full := false }

/-- Push every element of a list in order (left fold of Push). -/
def RingBuffer.pushMany (rb : RingBuffer) (es : List EventResponse) : RingBuffer :=
  es.foldl RingBuffer.push rb

/-- Well-formedness of a ring buffer: established by NewRingBuffer and
preserved by Push. All conjuncts are decidable. -/
def RingBuffer.Wf (rb : RingBuffer) : Prop :=
  0 < rb.capacity ∧ rb.buffer.size = rb.capacity ∧
  rb.head = (rb.tail + rb.size) % rb.capacity ∧
  rb.tail < rb.capacity ∧ rb.size ≤ rb.capacity ∧ (rb.full ↔ rb.size = rb.capacity)

instance (rb : RingBuffer) : Decidable rb.Wf := by
  unfold RingBuffer.Wf; infer_instance

/-! ## Association-list embedding of Go maps with String keys -/

/-- Lookup in a Go map embedded as an association list. -/
def findKey {V : Type} : List (String × V) → String → Option V
  | [], _ => none
  | (k2, v) :: rest, k => if k2 = k then some v else findKey rest k

/-- Assignment m[k] = v on a Go map: update in place or append. -/
def insertKey {V : Type} : List (String × V) → String → V → List (String × V)
  | [], k, v => [(k, v)]
  | (k2, v2) :: rest, k, v =>
    if k2 = k then (k2, v) :: rest else (k2, v2) :: insertKey rest k v

/-- delete(m, k) on a Go map. -/
def eraseKey {V : Type} : List (String × V) → String → List (String × V)
  | [], _ => []
  | (k2, v2) :: rest, k =>
    if k2 = k then eraseKey rest k else (k2, v2) :: eraseKey rest k

/-! ## Pub/sub core state (pubsub.go) -/

/-- PubSubClient from pubsub.go. The Go WriteChan is a shared channel
reference; here the channel contents live in the client record, which is the
single registry entry the Go pointer always aliases. -/
structure PubSubClient where
  clientID : String
  buffer : RingBuffer
  writeChan : Chan
  lastActive : Nat
  connected : Bool
deriving DecidableEq, Inhabited

/-- Subscriber from pubsub.go: a (client, topic) link. The Client pointer
field is resolved through the clients registry via clientID. -/
structure Subscriber where
  clientID : String
  topic : String
deriving DecidableEq, Inhabited

/-- Topic from pubsub.go. MessageCount is a Go int64, embedded as Int (the
counter equals the number of successful publishes, far from the 64-bit
boundary on any concrete run). -/
structure Topic where
  name : String
  subscribers : List (String × Subscriber)
  messageCount : Int
  createdAt : Nat
  messageHistory : RingBuffer
deriving DecidableEq, Inhabited

/-- PubSubSystem from pubsub.go: the three registries plus start time. -/
structure PubSubSystem where
  topics : List (String × Topic)
  clients : List (String × PubSubClient)
  clientTopics : List (String × List (String × Bool))
  startTime : Nat
deriving DecidableEq, Inhabited

/-- NewPubSubSystem from pubsub.go. -/
def newPubSubSystem (now : Nat) : PubSubSystem :=
  { topics := [], clients := [], clientTopics := [], startTime := now }

/-- CreateTopic from pubsub.go. Returns (error, new state); errors are the
fmt.Errorf strings. -/
def PubSubSystem.createTopic (ps : PubSubSystem) (name : String) (now : Nat) :
    Option String × PubSubSystem :=
  if (findKey ps.topics name).isSome then
    (some s!"topic {name} already exists", ps)
  else
    let topic : Topic :=
      { name
        subscribers := []
        messageCount := 0
        createdAt := now
        messageHistory := RingBuffer.new TopicHistoryBufferSize }
    (none, { ps with topics := insertKey ps.topics name topic })

/-- The per-subscriber body of the DeleteTopic loop acting on the clients
registry: best-effort send of the deletion notice into the subscriber's write
channel (select with default; no LastActive update). The Go Client pointer is
always a live registry entry; an absent id deliver-target is skipped. -/
def offerNotice (clients : List (String × PubSubClient)) (clientID : String)
    (notice : EventResponse) : List (String × PubSubClient) :=
  match findKey clients clientID with
  | none => clients
  | some client =>
    let (_, ch) := client.writeChan.offer notice
    insertKey clients clientID { client with writeChan := ch }

/-- The clientTopics surgery of the DeleteTopic loop for one subscriber:
delete(clientTopics[clientID], name), dropping the client entry when its set
becomes empty. -/
def removeClientTopic (ct : List (String × List (String × Bool)))
    (clientID name : String) : List (String × List (String × Bool)) :=
  match findKey ct clientID with
  | none => ct
  | some inner =>
    let inner2 := eraseKey inner name
    if inner2.isEmpty then eraseKey ct clientID
    else insertKey ct clientID inner2

/-- The DeleteTopic subscriber loop from pubsub.go: for each subscriber, send
a topic_deleted notice (best effort) and remove the topic from the client's
topic set, dropping the set when it becomes empty. freshID models uuid.New()
for the i-th notice. -/
def evictLoop (name : String) (freshID : Nat → String) (now : Nat) :
    List (String × Subscriber) → List (String × PubSubClient) →
    List (String × List (String × Bool)) → Nat →
    List (String × PubSubClient) × List (String × List (String × Bool))
  | [], clients, ct, _ => (clients, ct)
  | (_, sub) :: rest, clients, ct, i =>
    let notice : EventResponse :=
      { type := "info", topic := name
        message := { id := freshID i, payload := .text "topic_deleted" }
        timestamp := now }
    let clients2 := offerNotice clients sub.clientID notice
    let ct2 := removeClientTopic ct sub.clientID name
    evictLoop name freshID now rest clients2 ct2 (i + 1)

/-- DeleteTopic from pubsub.go. -/
def PubSubSystem.deleteTopic (ps : PubSubSystem) (name : String)
    (freshID : Nat → String) (now : Nat) : Option String × PubSubSystem :=
  match findKey ps.topics name with
  | none => (some s!"topic {name} not found", ps)
  | some topic =>
    let res := evictLoop name freshID now topic.subscribers ps.clients ps.clientTopics 0
    (none, { ps with
      topics := eraseKey ps.topics name
      clients := res.1
      clientTopics := res.2 })

/-- Subscribe from pubsub.go. Returns (error, last N history events, state).
writeChan is the channel supplied by the connection session. -/
def PubSubSystem.subscribe (ps : PubSubSystem) (clientID topicName : String)
    (lastN : Int) (writeChan : Chan) (now : Nat) :
    Option String × List EventResponse × PubSubSystem :=
  match findKey ps.topics topicName with
  | none => (some s!"topic {topicName} not found", [], ps)
  | some topic =>
    let inner := (findKey ps.clientTopics clientID).getD []
    let clientTopics := insertKey ps.clientTopics clientID (insertKey inner topicName true)
    let clients :=
      match findKey ps.clients clientID with
      | none =>
        insertKey ps.clients clientID
          { clientID
            buffer := RingBuffer.new DefaultBufferSize
            writeChan
            lastActive := now
            connected := true }
      | some client =>
        insertKey ps.clients clientID
          { client with writeChan, connected := true, lastActive := now }
    let topic2 := { topic with
      subscribers := insertKey topic.subscribers clientID { clientID, topic := topicName } }
    let topics := insertKey ps.topics topicName topic2
    let lastMessages :=
      if 0 < lastN then topic.messageHistory.getLastN lastN else []
    (none, lastMessages, { ps with topics, clients, clientTopics })

/-- Unsubscribe from pubsub.go. Note the client→topic edge is removed before
the topic registry is consulted, so the topic-not-found error leaves that
partial removal in place. -/
def PubSubSystem.unsubscribe (ps : PubSubSystem) (clientID topicName : String) :
    Option String × PubSubSystem :=
  let notSubscribed : Bool :=
    match findKey ps.clientTopics clientID with
    | none => true
    | some inner => !((findKey inner topicName).getD false)
  if notSubscribed then
    (some s!"client {clientID} is not subscribed to topic {topicName}", ps)
  else
    let inner := (findKey ps.clientTopics clientID).getD []
    let inner2 := eraseKey inner topicName
    let clientTopics :=
      if inner2.isEmpty then eraseKey ps.clientTopics clientID
      else insertKey ps.clientTopics clientID inner2
    let ps2 := { ps with clientTopics }
    match findKey ps2.topics topicName with
    | none => (some s!"topic {topicName} not found", ps2)
    | some topic =>
      let topic2 := { topic with subscribers := eraseKey topic.subscribers clientID }
      (none, { ps2 with topics := insertKey ps2.topics topicName topic2 })

/-- The per-subscriber body of the Publish fan-out loop from pubsub.go:
skip disconnected clients, push the event into the client ring buffer, then a
non-blocking offer to the write channel, refreshing LastActive on success. -/
def deliverToClient (clients : List (String × PubSubClient)) (clientID : String)
    (event : EventResponse) (now : Nat) : List (String × PubSubClient) :=
  match findKey clients clientID with
  | none => clients
  | some client =>
    if !client.connected then clients
    else
      let client2 := { client with buffer := client.buffer.push event }
      let (sent, ch) := client2.writeChan.offer event
      let client3 :=
        if sent then { client2 with writeChan := ch, lastActive := now }
        else { client2 with writeChan := ch }
      insertKey clients clientID client3

/-- The event frame Publish builds before fan-out. -/
def eventOf (topicName : String) (message : MessageData) (now : Nat) : EventResponse :=
  { type := "event", topic := topicName, message, timestamp := now }

/-- Publish from pubsub.go. The senderClientID parameter is accepted but, as
in the source, never used in the body: the fan-out loop visits every
subscriber including the sender. -/
def PubSubSystem.publish (ps : PubSubSystem) (topicName : String)
    (message : MessageData) (senderClientID : String) (now : Nat) :
    Option String × PubSubSystem :=
  match findKey ps.topics topicName with
  | none => (some s!"topic {topicName} not found", ps)
  | some topic =>
    let event : EventResponse := eventOf topicName message now
    let topic2 := { topic with
      messageCount := topic.messageCount + 1
      messageHistory := topic.messageHistory.push event }
    let clients := topic2.subscribers.foldl
      (fun cs p => deliverToClient cs p.2.clientID event now) ps.clients
    (none, { ps with topics := insertKey ps.topics topicName topic2, clients })

/-- One step of the DisconnectClient topic loop: if the topic exists, delete
the client from its subscriber map. -/
def removeSubEntry (ts : List (String × Topic)) (tn clientID : String) :
    List (String × Topic) :=
  match findKey ts tn with
  | some topic =>
    insertKey ts tn { topic with subscribers := eraseKey topic.subscribers clientID }
  | none => ts

/-- DisconnectClient from pubsub.go: mark disconnected, drop the client's
topic set, and remove the client from every subscribed topic that exists. -/
def PubSubSystem.disconnectClient (ps : PubSubSystem) (clientID : String) :
    PubSubSystem :=
  let clients :=
    match findKey ps.clients clientID with
    | some client => insertKey ps.clients clientID { client with connected := false }
    | none => ps.clients
  match findKey ps.clientTopics clientID with
  | none => { ps with clients }
  | some topicsMap =>
    let clientTopics := eraseKey ps.clientTopics clientID
    let topics := topicsMap.foldl
      (fun ts p => removeSubEntry ts p.1 clientID) ps.topics
    { ps with clients, topics, clientTopics }

/-! ## Operation traces over the core -/

/-- One core operation together with the external inputs it consumes
(timestamps, the session channel handed to Subscribe, the uuid source used by
DeleteTopic notices). -/
inductive Op where
  | createTopic (name : String) (now : Nat)
  | deleteTopic (name : String) (freshID : Nat → String) (now : Nat)
  | subscribe (clientID topicName : String) (lastN : Int) (writeChan : Chan) (now : Nat)
  | unsubscribe (clientID topicName : String)
  | publish (topicName : String) (message : MessageData) (sender : String) (now : Nat)
  | disconnect (clientID : String)

/-- Apply one operation to the state, discarding the returned values. -/
def PubSubSystem.apply (ps : PubSubSystem) : Op → PubSubSystem
  | .createTopic name now => (ps.createTopic name now).2
  | .deleteTopic name freshID now => (ps.deleteTopic name freshID now).2
  | .subscribe c t n ch now => (ps.subscribe c t n ch now).2.2
  | .unsubscribe c t => (ps.unsubscribe c t).2
  | .publish t m s now => (ps.publish t m s now).2
  | .disconnect c => ps.disconnectClient c

/-- Run a list of operations from a state. -/
def PubSubSystem.run (ps : PubSubSystem) (ops : List Op) : PubSubSystem :=
  ops.foldl PubSubSystem.apply ps

/-! ## Request and response frames (models.go) -/

/-- SubscribeRequest from models.go; a JSON field absent from the frame
decodes to the Go zero value, the empty string (or 0 for last_n). -/
structure SubscribeRequest where
  type : String
  topic : String
  clientID : String
  lastN : Int
  requestID : String
deriving DecidableEq, Inhabited

/-- UnsubscribeRequest from models.go. -/
structure UnsubscribeRequest where
  type : String
  topic : String
  clientID : String
  requestID : String
deriving DecidableEq, Inhabited

/-- PublishRequest from models.go. -/
structure PublishRequest where
  type : String
  topic : String
  message : MessageData
  clientID : String
  requestID : String
deriving DecidableEq, Inhabited

/-- PingRequest from models.go. -/
structure PingRequest where
  type : String
  requestID : String
deriving DecidableEq, Inhabited

/-- A decoded inbound request, as dispatched by handleMessage. -/
inductive Request where
  | sub (r : SubscribeRequest)
  | unsub (r : UnsubscribeRequest)
  | pub (r : PublishRequest)
  | ping (r : PingRequest)
deriving DecidableEq, Inhabited

/-- AckResponse from models.go. -/
structure AckResponse where
  type : String
  requestID : String
  topic : String
  status : String
  timestamp : Nat
deriving DecidableEq, Inhabited

/-- ErrorResponse from models.go. -/
structure ErrorResponse where
  type : String
  requestID : String
  errData : ErrorData
  timestamp : Nat
deriving DecidableEq, Inhabited

/-- PongResponse from models.go. -/
structure PongResponse where
  type : String
  requestID : String
  timestamp : Nat
deriving DecidableEq, Inhabited

/-- The interface-typed argument of sendMessage in websocket.go. -/
inductive OutMessage where
  | ev (e : EventResponse)
  | ack (a : AckResponse)
  | er (e : ErrorResponse)
  | pong (p : PongResponse)
deriving DecidableEq, Inhabited

/-! ## uuid.Parse (external dependency github.com/google/uuid) -/

/-- Hex digit check used by uuid byte decoding. -/
def isHexDigit (ch : Char) : Bool :=
  (decide ('0' ≤ ch) && decide (ch ≤ '9')) ||
  (decide ('a' ≤ ch) && decide (ch ≤ 'f')) ||
  (decide ('A' ≤ ch) && decide (ch ≤ 'F'))

/-- Character check of the canonical 36-character uuid layout: dashes at
offsets 8, 13, 18, 23 and hex digits elsewhere. -/
def uuidBodyCheck : Nat → List Char → Bool
  | _, [] => true
  | i, ch :: rest =>
    (if i = 8 ∨ i = 13 ∨ i = 18 ∨ i = 23 then ch = '-' else isHexDigit ch) &&
    uuidBodyCheck (i + 1) rest

/-- Canonical xxxxxxxx-xxxx-xxxx-xxxx-xxxxxxxxxxxx form. -/
def uuidCanonical (cs : List Char) : Bool :=
  cs.length = 36 && uuidBodyCheck 0 cs

/-- ASCII case-insensitive comparison (strings.EqualFold on ASCII input). -/
def foldEqAscii (a b : List Char) : Bool :=
  a.map Char.toLower = b.map Char.toLower

/-- Whether uuid.Parse from github.com/google/uuid succeeds: length 36
canonical, length 45 with a case-insensitive urn:uuid: prefix, length 38 with
a leading brace (the trailing character is not validated by Parse), or 32
plain hex digits. -/
def uuidParseOk (s : String) : Bool :=
  let cs := s.data
  if cs.length = 36 then uuidCanonical cs
  else if cs.length = 45 then
    foldEqAscii (cs.take 9) ("urn:uuid:".data) && uuidCanonical (cs.drop 9)
  else if cs.length = 38 then uuidCanonical ((cs.drop 1).take 36)
  else if cs.length = 32 then cs.all isHexDigit
  else false

/-! ## Connection session (websocket.go) -/

/-- Client from websocket.go, restricted to the parts that interact with the
core: the outbound send channel (capacity 256 at construction), the bound
client id (empty until the first identifying request), and the pub/sub system
the session talks to. The websocket transport and inbound byte buffer are
external collaborators. -/
structure Client where
  send : Chan
  clientID : String
  pubsub : PubSubSystem
deriving DecidableEq, Inhabited

/-- NewClient from websocket.go: fresh channel of capacity 256, no id yet. -/
def Client.newClient (ps : PubSubSystem) : Client :=
  { send := { buf := [], cap := 256 }, clientID := "", pubsub := ps }

/-- sendMessage from websocket.go: convert the response to the EventResponse
wire shape and perform a non-blocking send on the session channel, reporting
CLIENT_OVERLOADED when the channel is full. -/
def Client.sendMessage (c : Client) (message : OutMessage) : Option ErrorData × Client :=
  let eventMsg : EventResponse :=
    match message with
    | .ev msg => msg
    | .ack msg =>
      { type := msg.type, topic := msg.topic
        message := { id := msg.requestID, payload := .statusVal msg.status }
        timestamp := msg.timestamp }
    | .er msg =>
      { type := msg.type, topic := ""
        message := { id := msg.requestID, payload := .errData msg.errData }
        timestamp := msg.timestamp }
    | .pong msg =>
      { type := msg.type, topic := ""
        message := { id := msg.requestID, payload := .text "pong" }
        timestamp := msg.timestamp }
  if c.send.buf.length < c.send.cap then
    (none, { c with send := { c.send with buf := c.send.buf ++ [eventMsg] } })
  else
    (some { code := "CLIENT_OVERLOADED", message := "Client send buffer is full" }, c)

/-- handleSubscribe from websocket.go. -/
def Client.handleSubscribe (c : Client) (req : SubscribeRequest) (now : Nat) :
    Option ErrorData × Client :=
  if req.requestID = "" then
    (some { code := "BAD_REQUEST", message := "request_id is required" }, c)
  else if req.clientID = "" then
    (some { code := "BAD_REQUEST", message := "client_id is required" }, c)
  else if c.clientID ≠ "" ∧ c.clientID ≠ req.clientID then
    (some { code := "BAD_REQUEST", message := "client_id mismatch with existing connection" }, c)
  else
    let c := if c.clientID = "" then { c with clientID := req.clientID } else c
    let (err, lastMessages, ps) :=
      c.pubsub.subscribe c.clientID req.topic req.lastN c.send now
    let c := { c with pubsub := ps }
    match err with
    | some e =>
      let resp : ErrorResponse :=
        { type := "error", requestID := req.requestID,
          errData := { code := "SUBSCRIBE_FAILED", message := e }, timestamp := now }
      c.sendMessage (.er resp)
    | none =>
      let ackResp : AckResponse :=
        { type := "ack", requestID := req.requestID,
          topic := req.topic, status := "ok", timestamp := now }
      let (err2, c) := c.sendMessage (.ack ackResp)
      match err2 with
      | some e => (some e, c)
      | none =>
        let c := lastMessages.foldl (fun c m => (c.sendMessage (.ev m)).2) c
        (none, c)

/-- handleUnsubscribe from websocket.go. -/
def Client.handleUnsubscribe (c : Client) (req : UnsubscribeRequest) (now : Nat) :
    Option ErrorData × Client :=
  if req.requestID = "" then
    (some { code := "BAD_REQUEST", message := "request_id is required" }, c)
  else if req.clientID = "" then
    (some { code := "BAD_REQUEST", message := "client_id is required" }, c)
  else if c.clientID ≠ "" ∧ c.clientID ≠ req.clientID then
    (some { code := "BAD_REQUEST", message := "client_id mismatch with existing connection" }, c)
  else
    let c := if c.clientID = "" then { c with clientID := req.clientID } else c
    let (err, ps) := c.pubsub.unsubscribe c.clientID req.topic
    let c := { c with pubsub := ps }
    match err with
    | some e =>
      let resp : ErrorResponse :=
        { type := "error", requestID := req.requestID,
          errData := { code := "UNSUBSCRIBE_FAILED", message := e }, timestamp := now }
      c.sendMessage (.er resp)
    | none =>
      let ackResp : AckResponse :=
        { type := "ack", requestID := req.requestID,
          topic := req.topic, status := "ok", timestamp := now }
      c.sendMessage (.ack ackResp)

/-- handlePublish from websocket.go. -/
def Client.handlePublish (c : Client) (req : PublishRequest) (now : Nat) :
    Option ErrorData × Client :=
  if req.requestID = "" then
    (some { code := "BAD_REQUEST", message := "request_id is required" }, c)
  else if c.clientID = "" ∧ req.clientID = "" then
    (some { code := "BAD_REQUEST",
            message := "client_id is required for first message on this connection" }, c)
  else if c.clientID ≠ "" ∧ req.clientID ≠ "" ∧ c.clientID ≠ req.clientID then
    (some { code := "BAD_REQUEST", message := "client_id mismatch with existing connection" }, c)
  else
    let c := if c.clientID = "" then { c with clientID := req.clientID } else c
    let uuidErrResp : ErrorResponse :=
      { type := "error", requestID := req.requestID,
        errData := { code := "BAD_REQUEST", message := "message.id must be a valid UUID" },
        timestamp := now }
    if req.message.id = "" then
      c.sendMessage (.er uuidErrResp)
    else if ¬ uuidParseOk req.message.id then
      c.sendMessage (.er uuidErrResp)
    else
      let (err, ps) := c.pubsub.publish req.topic req.message c.clientID now
      let c := { c with pubsub := ps }
      match err with
      | some e =>
        let resp : ErrorResponse :=
          { type := "error", requestID := req.requestID,
            errData := { code := "PUBLISH_FAILED", message := e }, timestamp := now }
        c.sendMessage (.er resp)
      | none =>
        let ackResp : AckResponse :=
          { type := "ack", requestID := req.requestID,
            topic := req.topic, status := "ok", timestamp := now }
        c.sendMessage (.ack ackResp)

/-- handlePing from websocket.go. -/
def Client.handlePing (c : Client) (req : PingRequest) (now : Nat) :
    Option ErrorData × Client :=
  if req.requestID = "" then
    (some { code := "BAD_REQUEST", message := "request_id is required" }, c)
  else
    c.sendMessage (.pong { type := "pong", requestID := req.requestID, timestamp := now })

/-- handleMessage from websocket.go, after ParseMessage has produced a typed
request. -/
def Client.handleMessage (c : Client) (req : Request) (now : Nat) :
    Option ErrorData × Client :=
  match req with
  | .sub r => c.handleSubscribe r now
  | .unsub r => c.handleUnsubscribe r now
  | .pub r => c.handlePublish r now
  | .ping r => c.handlePing r now

/-- One iteration of processPump from websocket.go: handle the message and,
when the handler returns an error, send an error frame whose code is
PROCESSING_ERROR and whose message is err.Error() (the ErrorData message);
its RequestID field is left at the zero value. -/
def Client.processMessage (c : Client) (req : Request) (now : Nat) : Client :=
  match c.handleMessage req now with
  | (none, c2) => c2
  | (some e, c2) =>
    let resp : ErrorResponse :=
      { type := "error", requestID := "",
        errData := { code := "PROCESSING_ERROR", message := e.message },
        timestamp := now }
    (c2.sendMessage (.er resp)).2

/-! ## Specification predicates -/

/-- Whether topic t is in the topic set of client c: the Go read
clientTopics[c][t], with absent maps and keys reading as false. -/
def memEdge (ct : List (String × List (String × Bool))) (c t : String) : Bool :=
  (findKey ((findKey ct c).getD []) t).getD false

/-- The pairwise subscription-edge invariant of the specification: for every
client c and every existing topic t, t is in the topic set of c exactly when
c is a key of the topic's subscriber map. -/
def EdgeInv (ps : PubSubSystem) : Prop :=
  ∀ c t topic, findKey ps.topics t = some topic →
    (memEdge ps.clientTopics c t = true ↔ (findKey topic.subscribers c).isSome = true)

/-- Every topic name appearing in a client topic set names an existing
topic. -/
def NoDangling (ps : PubSubSystem) : Prop :=
  ∀ c t, memEdge ps.clientTopics c t = true → (findKey ps.topics t).isSome = true

/-- Subscriber records are stored under their own client id. -/
def SubCoherent (ps : PubSubSystem) : Prop :=
  ∀ t topic c sub, findKey ps.topics t = some topic →
    findKey topic.subscribers c = some sub → sub.clientID = c

/-- The inductive system invariant maintained by every core operation. -/
def SysInv (ps : PubSubSystem) : Prop :=
  EdgeInv ps ∧ NoDangling ps ∧ SubCoherent ps

/-- The last k elements of a list (the whole list when it is shorter). -/
def takeLast {α : Type} (l : List α) (k : Nat) : List α :=
  l.drop (l.length - k)

/-- The sequence of events appended to the history ring of topic t along a
run: a successful Publish to t appends the event frame; a successful
CreateTopic of t installs a fresh ring, resetting the sequence. -/
def publishTrace (t : String) : PubSubSystem → List EventResponse → List Op →
    List EventResponse
  | _, acc, [] => acc
  | ps, acc, .createTopic name now :: ops =>
    publishTrace t (ps.apply (.createTopic name now))
      (if name = t ∧ (findKey ps.topics name).isNone then [] else acc) ops
  | ps, acc, .deleteTopic name freshID now :: ops =>
    publishTrace t (ps.apply (.deleteTopic name freshID now)) acc ops
  | ps, acc, .subscribe c tn n ch now :: ops =>
    publishTrace t (ps.apply (.subscribe c tn n ch now)) acc ops
  | ps, acc, .unsubscribe c tn :: ops =>
    publishTrace t (ps.apply (.unsubscribe c tn)) acc ops
  | ps, acc, .publish name msg sender now :: ops =>
    publishTrace t (ps.apply (.publish name msg sender now))
      (if name = t ∧ (findKey ps.topics name).isSome then acc ++ [eventOf name msg now]
       else acc) ops
  | ps, acc, .disconnect c :: ops =>
    publishTrace t (ps.apply (.disconnect c)) acc ops

/-! ## Lemmas about the map embedding -/

theorem findKey_insertKey_self {V : Type} (m : List (String × V)) (k : String) (v : V) :
    findKey (insertKey m k v) k = some v := by
  induction m with
  | nil => simp [insertKey, findKey]
  | cons p rest ih =>
    obtain ⟨k2, v2⟩ := p
    by_cases h : k2 = k
    · simp [insertKey, h, findKey]
    · simp [insertKey, h, findKey, ih]

theorem findKey_insertKey_ne {V : Type} (m : List (String × V)) (k k2 : String) (v : V)
    (h : k ≠ k2) : findKey (insertKey m k v) k2 = findKey m k2 := by
  induction m with
  | nil => simp [insertKey, findKey, h]
  | cons p rest ih =>
    obtain ⟨k3, v3⟩ := p
    by_cases h3 : k3 = k
    · subst h3; simp [insertKey, findKey, h]
    · simp [insertKey, h3, findKey, ih]

theorem findKey_eraseKey_self {V : Type} (m : List (String × V)) (k : String) :
    findKey (eraseKey m k) k = none := by
  induction m with
  | nil => simp [eraseKey, findKey]
  | cons p rest ih =>
    obtain ⟨k2, v2⟩ := p
    by_cases h : k2 = k
    · simp [eraseKey, h, ih]
    · simp [eraseKey, h, findKey, ih]

theorem findKey_eraseKey_ne {V : Type} (m : List (String × V)) (k k2 : String)
    (h : k ≠ k2) : findKey (eraseKey m k) k2 = findKey m k2 := by
  induction m with
  | nil => simp [eraseKey]
  | cons p rest ih =>
    obtain ⟨k3, v3⟩ := p
    by_cases h3 : k3 = k
    · subst h3; simp [eraseKey, findKey, h, ih]
    · simp [eraseKey, h3, findKey, ih]

theorem insertKey_insertKey {V : Type} (m : List (String × V)) (k : String) (v w : V) :
    insertKey (insertKey m k v) k w = insertKey m k w := by
  induction m with
  | nil => simp [insertKey]
  | cons p rest ih =>
    obtain ⟨k2, v2⟩ := p
    by_cases h : k2 = k
    · simp [insertKey, h]
    · simp [insertKey, h, ih]

theorem eraseKey_eraseKey {V : Type} (m : List (String × V)) (k : String) :
    eraseKey (eraseKey m k) k = eraseKey m k := by
  induction m with
  | nil => simp [eraseKey]
  | cons p rest ih =>
    obtain ⟨k2, v2⟩ := p
    by_cases h : k2 = k
    · simp [eraseKey, h, ih]
    · simp [eraseKey, h, ih]

theorem findKey_eq_none_of_eraseKey_nil {V : Type} (m : List (String × V))
    (k k2 : String) (h : eraseKey m k = []) (hne : k2 ≠ k) : findKey m k2 = none := by
  induction m with
  | nil => simp [findKey]
  | cons p rest ih =>
    obtain ⟨k3, v3⟩ := p
    by_cases h3 : k3 = k
    · subst h3
      simp only [eraseKey, if_pos rfl] at h
      simp [findKey, Ne.symm hne, ih h]
    · simp [eraseKey, h3] at h

theorem any_of_findKey_some {V : Type} (m : List (String × V)) (k : String) (v : V)
    (p : String × V → Bool) (h : findKey m k = some v) (hp : p (k, v) = true) :
    m.any p = true := by
  induction m with
  | nil => simp [findKey] at h
  | cons q rest ih =>
    obtain ⟨k2, v2⟩ := q
    by_cases h2 : k2 = k
    · subst h2
      simp [findKey] at h
      subst h
      simp [List.any, hp]
    · simp [findKey, h2] at h
      simp [List.any, ih h]

/-! ## Lemmas about the ring buffer -/

theorem getD_setD_ne {α : Type} [Inhabited α] (a : Array α) (i j : Nat) (v : α)
    (h : i ≠ j) : (a.setD i v).getD j default = a.getD j default := by
  simp only [Array.getD_eq_get?]
  unfold Array.setD
  split
  · rw [Array.getElem?_set_ne]
    exact h
  · rfl

theorem getD_setD_self {α : Type} [Inhabited α] (a : Array α) (i : Nat) (v : α)
    (h : i < a.size) : (a.setD i v).getD i default = v := by
  simp [Array.getD_eq_get?, Array.getD_get?_setD, h]

theorem mod_add_ne (a d n : Nat) (h1 : 0 < d) (h2 : d < n) : (a + d) % n ≠ a % n := by
  intro hEq
  have hmod : Nat.ModEq n a (a + d) := hEq.symm
  have hd : n ∣ (a + d) - a := (Nat.modEq_iff_dvd' (Nat.le_add_right a d)).1 hmod
  have hd2 : n ∣ d := by simpa using hd
  have := Nat.le_of_dvd h1 hd2
  omega

theorem mod_shift_eq (cap q x y : Nat) (h : x = cap * q + y) : x % cap = y % cap := by
  subst h
  exact Nat.mul_add_mod cap q y

theorem RingBuffer.wf_new (cap : Nat) (h : 0 < cap) : (RingBuffer.new cap).Wf := by
  refine ⟨h, by simp [RingBuffer.new], ?_, h, by simp [RingBuffer.new], ?_⟩
  · simp [RingBuffer.new, Nat.zero_mod]
  · simp [RingBuffer.new]
    omega

theorem RingBuffer.toList_length (rb : RingBuffer) : rb.toList.length = rb.size := by
  simp [RingBuffer.toList]

theorem RingBuffer.wf_push (rb : RingBuffer) (e : EventResponse) (h : rb.Wf) :
    (rb.push e).Wf := by
  obtain ⟨hcap, hbuf, hhead, htail, hsize, hfull⟩ := h
  by_cases hf : rb.size = rb.capacity
  · have hfl : rb.full = true := hfull.2 hf
    have h1 : rb.head = rb.tail := by
      rw [hhead, hf, Nat.add_mod_right, Nat.mod_eq_of_lt htail]
    refine ⟨?_, ?_, ?_, ?_, ?_, ?_⟩ <;>
      simp only [RingBuffer.push, hfl, if_true, Array.size_setD]
    · exact hcap
    · exact hbuf
    · simp [h1, hf, Nat.add_mod_right]
    · exact Nat.mod_lt _ hcap
    · exact hsize
    · simp [hfl, hf]
  · have hfl : rb.full = false := by
      cases hx : rb.full
      · rfl
      · exact absurd (hfull.1 (by simp [hx])) hf
    refine ⟨?_, ?_, ?_, ?_, ?_, ?_⟩ <;>
      simp only [RingBuffer.push, hfl, if_false, Array.size_setD, Bool.false_eq_true]
    · exact hcap
    · exact hbuf
    · rw [hhead, Nat.mod_add_mod, Nat.add_assoc]
    · exact htail
    · omega
    · simp

theorem RingBuffer.size_push (rb : RingBuffer) (e : EventResponse) :
    (rb.push e).size = if rb.full then rb.size else rb.size + 1 := by
  cases hx : rb.full <;> simp [RingBuffer.push, hx]

theorem RingBuffer.toList_push (rb : RingBuffer) (e : EventResponse) (h : rb.Wf) :
    (rb.push e).toList =
      (if rb.size = rb.capacity then rb.toList.drop 1 else rb.toList) ++ [e] := by
  obtain ⟨hcap, hbuf, hhead, htail, hsize, hfull⟩ := h
  have hheadlt : rb.head < rb.buffer.size := by
    rw [hbuf, hhead]; exact Nat.mod_lt _ hcap
  by_cases hf : rb.size = rb.capacity
  · have hfl : rb.full = true := hfull.2 hf
    have hhd : rb.head = rb.tail := by
      rw [hhead, hf, Nat.add_mod_right, Nat.mod_eq_of_lt htail]
    have htl : rb.tail % rb.capacity = rb.tail := Nat.mod_eq_of_lt htail
    simp only [hf, if_true]
    have hLshape : (rb.push e).toList =
        (List.range rb.size).map
          (fun i => (rb.buffer.setD rb.head e).getD
            (((rb.tail + 1) % rb.capacity + i) % rb.capacity) default) := by
      simp [RingBuffer.push, hfl, RingBuffer.toList]
    rw [hLshape]
    apply List.ext_getElem
    · simp [RingBuffer.toList_length]
      omega
    · intro i h1 h2
      simp only [List.length_map, List.length_range] at h1
      by_cases hi : i < rb.size - 1
      · rw [List.getElem_append_left (by simp [RingBuffer.toList_length]; omega)]
        rw [List.getElem_map, List.getElem_range, List.getElem_drop]
        simp only [RingBuffer.toList, List.getElem_map, List.getElem_range]
        have hidx : ((rb.tail + 1) % rb.capacity + i) % rb.capacity
            = (rb.tail + (1 + i)) % rb.capacity := by
          rw [Nat.mod_add_mod, Nat.add_assoc]
        rw [hidx]
        apply getD_setD_ne
        rw [hhd]
        intro hEq
        exact mod_add_ne rb.tail (1 + i) rb.capacity (by omega) (by omega)
          (by rw [← hEq, htl])
      · have hieq : i = rb.size - 1 := by omega
        rw [List.getElem_append_right (by simp [RingBuffer.toList_length]; omega)]
        rw [List.getElem_map, List.getElem_range]
        have hidx : ((rb.tail + 1) % rb.capacity + i) % rb.capacity = rb.head := by
          rw [Nat.mod_add_mod, hieq, hhd]
          have hstep : rb.tail + 1 + (rb.size - 1) = rb.tail + rb.capacity := by omega
          rw [hstep, Nat.add_mod_right, htl]
        rw [hidx]
        simp [getD_setD_self rb.buffer rb.head e hheadlt]
  · have hfl : rb.full = false := by
      cases hx : rb.full
      · rfl
      · exact absurd (hfull.1 (by simp [hx])) hf
    have hlt : rb.size < rb.capacity := Nat.lt_of_le_of_ne hsize hf
    simp only [hf, if_false]
    have hLshape : (rb.push e).toList =
        (List.range (rb.size + 1)).map
          (fun i => (rb.buffer.setD rb.head e).getD
            ((rb.tail + i) % rb.capacity) default) := by
      simp [RingBuffer.push, hfl, RingBuffer.toList]
    rw [hLshape]
    apply List.ext_getElem
    · simp [RingBuffer.toList_length]
    · intro i h1 h2
      simp only [List.length_map, List.length_range] at h1
      by_cases hi : i < rb.size
      · rw [List.getElem_append_left (by simp [RingBuffer.toList_length]; omega)]
        rw [List.getElem_map, List.getElem_range]
        simp only [RingBuffer.toList, List.getElem_map, List.getElem_range]
        apply getD_setD_ne
        rw [hhead]
        have hsplit : rb.tail + rb.size = (rb.tail + i) + (rb.size - i) := by omega
        rw [hsplit]
        exact mod_add_ne (rb.tail + i) (rb.size - i) rb.capacity (by omega) (by omega)
      · have hieq : i = rb.size := by omega
        rw [List.getElem_append_right (by simp [RingBuffer.toList_length]; omega)]
        rw [List.getElem_map, List.getElem_range]
        have hidx : (rb.tail + i) % rb.capacity = rb.head := by rw [hieq, hhead]
        rw [hidx]
        simp [getD_setD_self rb.buffer rb.head e hheadlt]

/-- Transfer of a wrapped-start index to the linear index, no wrap case. -/
theorem start_mod_eq_of_le (S cap cnt : Nat) (hcnt : cnt ≤ S) (h : cnt ≤ S % cap) :
    (S % cap - cnt) % cap = (S - cnt) % cap := by
  zify [h, hcnt]
  rw [Int.sub_emod ((S : Int) % cap) cnt, Int.sub_emod (S : Int) cnt,
    Int.emod_emod_of_dvd _ dvd_rfl]

/-- Transfer of a wrapped-start index to the linear index, wrap case. -/
theorem start_mod_eq_of_lt (S cap cnt : Nat) (hcnt : cnt ≤ S) (hcc : cnt ≤ cap)
    (h : S % cap < cnt) : (S % cap + cap - cnt) % cap = (S - cnt) % cap := by
  zify [hcnt, show cnt ≤ S % cap + cap by omega]
  have hsplit : (S : Int) % cap + cap - cnt = ((S : Int) % cap - cnt) + cap * 1 := by ring
  rw [hsplit, Int.add_mul_emod_self_left,
    Int.sub_emod ((S : Int) % cap) cnt, Int.sub_emod (S : Int) cnt,
    Int.emod_emod_of_dvd _ dvd_rfl]

theorem RingBuffer.getLastN_eq (rb : RingBuffer) (n : Int) (h : rb.Wf) :
    rb.getLastN n =
      if n ≤ 0 then [] else rb.toList.drop (rb.size - min n.toNat rb.size) := by
  obtain ⟨hcap, hbuf, hhead, htail, hsize, hfull⟩ := h
  by_cases hn : n ≤ 0
  · simp [RingBuffer.getLastN, hn]
  · by_cases hs : rb.size = 0
    · simp [RingBuffer.getLastN, hs, hn, RingBuffer.toList]
    · have hn2 : ¬ (rb.size = 0 ∨ n ≤ 0) := by omega
      rw [RingBuffer.getLastN, if_neg hn2, if_neg hn]
      have hcnt : (if (rb.size : Int) < n then rb.size else n.toNat)
          = min n.toNat rb.size := by
        split <;> omega
      rw [hcnt]
      set cnt := min n.toNat rb.size with hcntdef
      have hcle : cnt ≤ rb.size := by omega
      have hccap : cnt ≤ rb.capacity := by omega
      have hcpos : 0 < cnt := by omega
      have hSmod : rb.head = (rb.tail + rb.size) % rb.capacity := hhead
      have hstart : (if (rb.head : Int) - cnt < 0
            then (rb.head : Int) - cnt + rb.capacity
            else (rb.head : Int) - cnt).toNat % rb.capacity
          = (rb.tail + rb.size - cnt) % rb.capacity := by
        by_cases hb : (rb.head : Int) - cnt < 0
        · rw [if_pos hb]
          have hto : ((rb.head : Int) - cnt + rb.capacity).toNat
              = rb.head + rb.capacity - cnt := by omega
          rw [hto, hSmod]
          exact start_mod_eq_of_lt (rb.tail + rb.size) rb.capacity cnt (by omega)
            hccap (by omega)
        · rw [if_neg hb]
          have hto : ((rb.head : Int) - cnt).toNat = rb.head - cnt := by omega
          rw [hto, hSmod]
          exact start_mod_eq_of_le (rb.tail + rb.size) rb.capacity cnt (by omega)
            (by omega)
      apply List.ext_getElem
      · simp [RingBuffer.toList_length]
        omega
      · intro i h1 h2
        simp only [List.length_map, List.length_range] at h1
        rw [List.getElem_map, List.getElem_range, List.getElem_drop]
        simp only [RingBuffer.toList, List.getElem_map, List.getElem_range]
        congr 1
        rw [← Nat.mod_add_mod, hstart, Nat.mod_add_mod]
        congr 1
        omega

theorem RingBuffer.capacity_push (rb : RingBuffer) (e : EventResponse) :
    (rb.push e).capacity = rb.capacity := by
  cases hx : rb.full <;> simp [RingBuffer.push, hx]

theorem RingBuffer.pushMany_append_one (rb : RingBuffer) (es : List EventResponse)
    (e : EventResponse) : rb.pushMany (es ++ [e]) = (rb.pushMany es).push e := by
  simp [RingBuffer.pushMany, List.foldl_append]

theorem RingBuffer.wf_pushMany (rb : RingBuffer) (es : List EventResponse)
    (h : rb.Wf) : (rb.pushMany es).Wf := by
  induction es generalizing rb with
  | nil => simpa [RingBuffer.pushMany] using h
  | cons e rest ih =>
    have hstep : rb.pushMany (e :: rest) = (rb.push e).pushMany rest := by
      simp [RingBuffer.pushMany]
    rw [hstep]
    exact ih (rb.push e) (RingBuffer.wf_push rb e h)

theorem RingBuffer.capacity_pushMany (rb : RingBuffer) (es : List EventResponse) :
    (rb.pushMany es).capacity = rb.capacity := by
  induction es generalizing rb with
  | nil => simp [RingBuffer.pushMany]
  | cons e rest ih =>
    have hstep : rb.pushMany (e :: rest) = (rb.push e).pushMany rest := by
      simp [RingBuffer.pushMany]
    rw [hstep, ih, RingBuffer.capacity_push]

theorem takeLast_of_le {α : Type} (l : List α) (k : Nat) (h : l.length ≤ k) :
    takeLast l k = l := by
  simp [takeLast, Nat.sub_eq_zero_of_le h]

theorem takeLast_length_le {α : Type} (l : List α) (k : Nat) :
    (takeLast l k).length ≤ k := by
  simp [takeLast]
  omega

theorem RingBuffer.toList_push_takeLast (rb : RingBuffer) (e : EventResponse)
    (h : rb.Wf) : (rb.push e).toList = takeLast (rb.toList ++ [e]) rb.capacity := by
  rw [RingBuffer.toList_push rb e h]
  obtain ⟨hcap, hbuf, hhead, htail, hsize, hfull⟩ := h
  by_cases hf : rb.size = rb.capacity
  · rw [if_pos hf]
    unfold takeLast
    have hlen : (rb.toList ++ [e]).length - rb.capacity = 1 := by
      simp [RingBuffer.toList_length]
      omega
    rw [hlen, List.drop_append_of_le_length (by simp [RingBuffer.toList_length]; omega)]
  · rw [if_neg hf]
    rw [takeLast_of_le]
    simp [RingBuffer.toList_length]
    omega

theorem takeLast_append_one {α : Type} (l : List α) (e : α) (k : Nat) (hk : 0 < k) :
    takeLast (takeLast l k ++ [e]) k = takeLast (l ++ [e]) k := by
  by_cases h : l.length ≤ k
  · rw [takeLast_of_le l k h]
  · have hkl : k ≤ l.length := by omega
    unfold takeLast
    have h1 : (l.drop (l.length - k) ++ [e]).length - k = 1 := by
      simp
      omega
    have h2 : (l ++ [e]).length - k = l.length - k + 1 := by
      simp
      omega
    rw [h1, h2, List.drop_append_of_le_length (by simp only [List.length_drop]; omega),
      List.drop_append_of_le_length (by omega), List.drop_drop]

theorem RingBuffer.toList_pushMany (rb : RingBuffer) (es : List EventResponse)
    (h : rb.Wf) :
    (rb.pushMany es).toList = takeLast (rb.toList ++ es) rb.capacity := by
  induction es using List.reverseRecOn with
  | nil =>
    rw [List.append_nil, takeLast_of_le]
    · simp [RingBuffer.pushMany]
    · rw [RingBuffer.toList_length]
      exact h.2.2.2.2.1
  | append_singleton es e ih =>
    rw [RingBuffer.pushMany_append_one,
      RingBuffer.toList_push_takeLast _ e (RingBuffer.wf_pushMany rb es h),
      RingBuffer.capacity_pushMany, ih, takeLast_append_one _ _ _ h.1,
      ← List.append_assoc]

theorem RingBuffer.toList_new (cap : Nat) : (RingBuffer.new cap).toList = [] := by
  simp [RingBuffer.new, RingBuffer.toList]

theorem RingBuffer.toList_pushMany_new (cap : Nat) (es : List EventResponse)
    (h : 0 < cap) :
    ((RingBuffer.new cap).pushMany es).toList = takeLast es cap := by
  rw [RingBuffer.toList_pushMany _ _ (RingBuffer.wf_new cap h), RingBuffer.toList_new,
    List.nil_append]
  rfl

/-! ## Lemmas about the subscription-edge indices -/

theorem mem_of_findKey_some {V : Type} (m : List (String × V)) (k : String) (v : V)
    (h : findKey m k = some v) : (k, v) ∈ m := by
  induction m with
  | nil => simp [findKey] at h
  | cons q rest ih =>
    obtain ⟨k2, v2⟩ := q
    by_cases h2 : k2 = k
    · subst h2
      simp [findKey] at h
      simp [h]
    · simp [findKey, h2] at h
      simp [ih h]

theorem findKey_some_of_eraseKey_some {V : Type} (m : List (String × V))
    (k k2 : String) (v : V) (h : findKey (eraseKey m k) k2 = some v) :
    findKey m k2 = some v := by
  by_cases hne : k = k2
  · subst hne
    rw [findKey_eraseKey_self] at h
    exact absurd h (by simp)
  · rwa [findKey_eraseKey_ne _ _ _ hne] at h

theorem memEdge_insertKey (ct : List (String × List (String × Bool)))
    (c : String) (inner : List (String × Bool)) (c2 t : String) :
    memEdge (insertKey ct c inner) c2 t =
      if c = c2 then (findKey inner t).getD false else memEdge ct c2 t := by
  unfold memEdge
  by_cases h : c = c2
  · subst h
    rw [findKey_insertKey_self]
    simp
  · rw [findKey_insertKey_ne _ _ _ _ h, if_neg h]

theorem memEdge_eraseKey (ct : List (String × List (String × Bool)))
    (c c2 t : String) :
    memEdge (eraseKey ct c) c2 t = if c = c2 then false else memEdge ct c2 t := by
  unfold memEdge
  by_cases h : c = c2
  · subst h
    rw [findKey_eraseKey_self, if_pos rfl]
    rfl
  · rw [findKey_eraseKey_ne _ _ _ h, if_neg h]

theorem memEdge_removeClientTopic (ct : List (String × List (String × Bool)))
    (d name c t : String) :
    memEdge (removeClientTopic ct d name) c t =
      if c = d ∧ t = name then false else memEdge ct c t := by
  cases hfd : findKey ct d with
  | none =>
    simp only [removeClientTopic, hfd]
    by_cases hc : c = d
    · subst hc
      have hm : memEdge ct c t = false := by
        unfold memEdge
        rw [hfd]
        rfl
      rw [hm]
      split <;> rfl
    · simp [hc]
  | some inner =>
    simp only [removeClientTopic, hfd]
    by_cases he : (eraseKey inner name).isEmpty = true
    · rw [if_pos he, memEdge_eraseKey]
      by_cases hc : c = d
      · subst hc
        rw [if_pos rfl]
        by_cases ht : t = name
        · simp [ht]
        · rw [if_neg (by simp [ht])]
          have hnone : findKey inner t = none := by
            apply findKey_eq_none_of_eraseKey_nil inner name t _ ht
            simpa [List.isEmpty_iff] using he
          unfold memEdge
          rw [hfd]
          simp only [Option.getD_some]
          rw [hnone]
          rfl
      · rw [if_neg (Ne.symm hc), if_neg (by simp [hc])]
    · rw [if_neg he, memEdge_insertKey]
      by_cases hc : c = d
      · subst hc
        rw [if_pos rfl]
        by_cases ht : t = name
        · subst ht
          rw [if_pos ⟨rfl, rfl⟩, findKey_eraseKey_self]
          rfl
        · rw [if_neg (by simp [ht]), findKey_eraseKey_ne _ _ _ (fun hx => ht hx.symm)]
          unfold memEdge
          rw [hfd]
          simp only [Option.getD_some]
      · rw [if_neg (Ne.symm hc), if_neg (by simp [hc])]

theorem evictLoop_memEdge (name : String) (freshID : Nat → String) (now : Nat)
    (subs : List (String × Subscriber)) :
    ∀ clients ct i c t,
    memEdge (evictLoop name freshID now subs clients ct i).2 c t =
      if (∃ p ∈ subs, p.2.clientID = c) ∧ t = name then false
      else memEdge ct c t := by
  induction subs with
  | nil => intro clients ct i c t; simp [evictLoop]
  | cons q rest ih =>
    intro clients ct i c t
    obtain ⟨key, sub⟩ := q
    rw [evictLoop, ih]
    rw [memEdge_removeClientTopic]
    by_cases hrest : (∃ p ∈ rest, p.2.clientID = c) ∧ t = name
    · rw [if_pos hrest, if_pos ⟨⟨hrest.1.choose, by simp [hrest.1.choose_spec.1],
        hrest.1.choose_spec.2⟩, hrest.2⟩]
    · rw [if_neg hrest]
      by_cases hc : c = sub.clientID ∧ t = name
      · rw [if_pos hc, if_pos ⟨⟨(key, sub), by simp, hc.1.symm⟩, hc.2⟩]
      · rw [if_neg hc, if_neg ?_]
        rintro ⟨⟨p, hp, hpc⟩, ht⟩
        rcases List.mem_cons.1 hp with hp1 | hp2
        · exact hc ⟨by rw [hp1] at hpc; exact hpc.symm, ht⟩
        · exact hrest ⟨⟨p, hp2, hpc⟩, ht⟩

theorem removeSubEntry_findKey (ts : List (String × Topic)) (tn cid t : String) :
    findKey (removeSubEntry ts tn cid) t =
      if tn = t then
        (findKey ts t).map
          (fun topic => { topic with subscribers := eraseKey topic.subscribers cid })
      else findKey ts t := by
  unfold removeSubEntry
  cases hfd : findKey ts tn with
  | none =>
    by_cases ht : tn = t
    · subst ht
      rw [if_pos rfl, hfd]
      rfl
    · rw [if_neg ht]
  | some topic =>
    by_cases ht : tn = t
    · subst ht
      rw [findKey_insertKey_self, if_pos rfl, hfd]
      rfl
    · rw [findKey_insertKey_ne _ _ _ _ ht, if_neg ht]

theorem foldl_removeSubEntry_findKey (cid : String) (l : List (String × Bool)) :
    ∀ (ts : List (String × Topic)) (t : String),
    findKey (l.foldl (fun ts p => removeSubEntry ts p.1 cid) ts) t =
      if ∃ p ∈ l, p.1 = t then
        (findKey ts t).map
          (fun topic => { topic with subscribers := eraseKey topic.subscribers cid })
      else findKey ts t := by
  induction l with
  | nil => intro ts t; simp
  | cons q rest ih =>
    intro ts t
    obtain ⟨k, b⟩ := q
    rw [List.foldl_cons, ih, removeSubEntry_findKey]
    have hidem : ((findKey ts t).map
          (fun topic => { topic with subscribers := eraseKey topic.subscribers cid })).map
          (fun topic => { topic with subscribers := eraseKey topic.subscribers cid })
        = (findKey ts t).map
          (fun topic => { topic with subscribers := eraseKey topic.subscribers cid }) := by
      cases findKey ts t <;> simp [eraseKey_eraseKey]
    by_cases hk : k = t
    · subst hk
      rw [if_pos rfl]
      by_cases hrest : ∃ p ∈ rest, p.1 = k
      · rw [if_pos hrest, hidem, if_pos ⟨(k, b), List.mem_cons_self _ _, rfl⟩]
      · rw [if_neg hrest, if_pos ⟨(k, b), List.mem_cons_self _ _, rfl⟩]
    · rw [if_neg hk]
      have hiff : (∃ p ∈ (k, b) :: rest, p.1 = t) ↔ (∃ p ∈ rest, p.1 = t) := by
        constructor
        · rintro ⟨p, hp, hpt⟩
          rcases List.mem_cons.1 hp with hp1 | hp2
          · exact absurd (by rw [hp1] at hpt; exact hpt) hk
          · exact ⟨p, hp2, hpt⟩
        · rintro ⟨p, hp, hpt⟩
          exact ⟨p, List.mem_cons_of_mem _ hp, hpt⟩
      rw [if_congr hiff rfl rfl]

/-! ## Preservation of the system invariant -/

theorem memEdge_some (ct : List (String × List (String × Bool))) (c t : String)
    (inner : List (String × Bool)) (h : findKey ct c = some inner) :
    memEdge ct c t = (findKey inner t).getD false := by
  unfold memEdge
  rw [h]
  rfl

theorem memEdge_none (ct : List (String × List (String × Bool))) (c t : String)
    (h : findKey ct c = none) : memEdge ct c t = false := by
  unfold memEdge
  rw [h]
  rfl

theorem sysInv_new (now : Nat) : SysInv (newPubSubSystem now) := by
  refine ⟨?_, ?_, ?_⟩
  · intro c t tp hfind
    simp [newPubSubSystem, findKey] at hfind
  · intro c t hmem
    rw [memEdge_none] at hmem
    · cases hmem
    · rfl
  · intro t tp c sub hfind hsub
    simp [newPubSubSystem, findKey] at hfind

theorem sysInv_createTopic (ps : PubSubSystem) (name : String) (now : Nat)
    (h : SysInv ps) : SysInv (ps.createTopic name now).2 := by
  obtain ⟨hE, hN, hS⟩ := h
  by_cases hex : (findKey ps.topics name).isSome = true
  · simpa [PubSubSystem.createTopic, hex] using ⟨hE, hN, hS⟩
  · rw [PubSubSystem.createTopic, if_neg hex]
    refine ⟨?_, ?_, ?_⟩
    · intro c t tp hfind
      by_cases ht : name = t
      · subst ht
        rw [findKey_insertKey_self] at hfind
        injection hfind with htp
        subst htp
        constructor
        · intro hmem
          exact absurd (hN c name hmem) hex
        · intro hsome
          simp [findKey] at hsome
      · rw [findKey_insertKey_ne _ _ _ _ ht] at hfind
        exact hE c t tp hfind
    · intro c t hmem
      have hold := hN c t hmem
      by_cases ht : name = t
      · subst ht
        exact absurd hold hex
      · rw [findKey_insertKey_ne _ _ _ _ ht]
        exact hold
    · intro t tp c sub hfind hsub
      by_cases ht : name = t
      · subst ht
        rw [findKey_insertKey_self] at hfind
        injection hfind with htp
        subst htp
        simp [findKey] at hsub
      · rw [findKey_insertKey_ne _ _ _ _ ht] at hfind
        exact hS t tp c sub hfind hsub

theorem sysInv_publish (ps : PubSubSystem) (tn : String) (msg : MessageData)
    (sender : String) (now : Nat) (h : SysInv ps) :
    SysInv (ps.publish tn msg sender now).2 := by
  obtain ⟨hE, hN, hS⟩ := h
  cases hfd : findKey ps.topics tn with
  | none => simpa [PubSubSystem.publish, hfd] using ⟨hE, hN, hS⟩
  | some topic =>
    simp only [PubSubSystem.publish, hfd]
    refine ⟨?_, ?_, ?_⟩
    · intro c t tp hfind
      by_cases ht : tn = t
      · subst ht
        rw [findKey_insertKey_self] at hfind
        injection hfind with htp
        subst htp
        exact hE c tn topic hfd
      · rw [findKey_insertKey_ne _ _ _ _ ht] at hfind
        exact hE c t tp hfind
    · intro c t hmem
      have hold := hN c t hmem
      by_cases ht : tn = t
      · subst ht
        rw [findKey_insertKey_self]
        rfl
      · rw [findKey_insertKey_ne _ _ _ _ ht]
        exact hold
    · intro t tp c sub hfind hsub
      by_cases ht : tn = t
      · subst ht
        rw [findKey_insertKey_self] at hfind
        injection hfind with htp
        subst htp
        exact hS tn topic c sub hfd hsub
      · rw [findKey_insertKey_ne _ _ _ _ ht] at hfind
        exact hS t tp c sub hfind hsub

theorem sysInv_subscribe (ps : PubSubSystem) (cid tn : String) (lastN : Int)
    (ch : Chan) (now : Nat) (h : SysInv ps) :
    SysInv (ps.subscribe cid tn lastN ch now).2.2 := by
  obtain ⟨hE, hN, hS⟩ := h
  cases hfd : findKey ps.topics tn with
  | none => simpa [PubSubSystem.subscribe, hfd] using ⟨hE, hN, hS⟩
  | some topic =>
    simp only [PubSubSystem.subscribe, hfd]
    refine ⟨?_, ?_, ?_⟩
    · intro c t tp hfind
      rw [memEdge_insertKey]
      by_cases ht : tn = t
      · subst ht
        rw [findKey_insertKey_self] at hfind
        injection hfind with htp
        subst htp
        by_cases hc : cid = c
        · subst hc
          rw [if_pos rfl, findKey_insertKey_self]
          dsimp only
          rw [findKey_insertKey_self]
          simp
        · rw [if_neg hc]
          dsimp only
          rw [findKey_insertKey_ne _ _ _ _ hc]
          exact hE c tn topic hfd
      · rw [findKey_insertKey_ne _ _ _ _ ht] at hfind
        by_cases hc : cid = c
        · subst hc
          rw [if_pos rfl, findKey_insertKey_ne _ _ _ _ ht]
          have hsame : ((findKey ((findKey ps.clientTopics cid).getD []) t).getD false)
              = memEdge ps.clientTopics cid t := rfl
          rw [hsame]
          exact hE cid t tp hfind
        · rw [if_neg hc]
          exact hE c t tp hfind
    · intro c t hmem
      rw [memEdge_insertKey] at hmem
      by_cases hc : cid = c
      · rw [if_pos hc] at hmem
        by_cases ht : tn = t
        · subst ht
          rw [findKey_insertKey_self]
          rfl
        · rw [findKey_insertKey_ne _ _ _ _ ht] at hmem ⊢
          have hsame : ((findKey ((findKey ps.clientTopics cid).getD []) t).getD false)
              = memEdge ps.clientTopics cid t := rfl
          rw [hsame] at hmem
          exact hN cid t hmem
      · rw [if_neg hc] at hmem
        by_cases ht : tn = t
        · subst ht
          rw [findKey_insertKey_self]
          rfl
        · rw [findKey_insertKey_ne _ _ _ _ ht]
          exact hN c t hmem
    · intro t tp c sub hfind hsub
      by_cases ht : tn = t
      · subst ht
        rw [findKey_insertKey_self] at hfind
        injection hfind with htp
        subst htp
        dsimp only at hsub
        by_cases hc : cid = c
        · subst hc
          rw [findKey_insertKey_self] at hsub
          injection hsub with hsubeq
          subst hsubeq
          rfl
        · rw [findKey_insertKey_ne _ _ _ _ hc] at hsub
          exact hS tn topic c sub hfd hsub
      · rw [findKey_insertKey_ne _ _ _ _ ht] at hfind
        exact hS t tp c sub hfind hsub

theorem sysInv_unsubscribe (ps : PubSubSystem) (cid tn : String) (h : SysInv ps) :
    SysInv (ps.unsubscribe cid tn).2 := by
  obtain ⟨hE, hN, hS⟩ := h
  cases hct : findKey ps.clientTopics cid with
  | none => simpa [PubSubSystem.unsubscribe, hct] using ⟨hE, hN, hS⟩
  | some inner =>
    by_cases hin : (findKey inner tn).getD false = true
    · have hCT : (if (eraseKey inner tn).isEmpty = true
            then eraseKey ps.clientTopics cid
            else insertKey ps.clientTopics cid (eraseKey inner tn))
          = removeClientTopic ps.clientTopics cid tn := by
        simp only [removeClientTopic, hct]
      simp only [PubSubSystem.unsubscribe, hct, hin, Option.getD_some, Bool.not_true,
        Bool.false_eq_true, if_false, hCT]
      cases hft : findKey ps.topics tn with
      | none =>
        simp only [hft]
        refine ⟨?_, ?_, ?_⟩
        · intro c t tp hfind
          have ht : ¬ (t = tn) := by
            intro hx
            rw [hx, hft] at hfind
            cases hfind
          rw [memEdge_removeClientTopic, if_neg (by simp [ht])]
          exact hE c t tp hfind
        · intro c t hmem
          rw [memEdge_removeClientTopic] at hmem
          by_cases hcond : c = cid ∧ t = tn
          · rw [if_pos hcond] at hmem
            cases hmem
          · rw [if_neg hcond] at hmem
            exact hN c t hmem
        · intro t tp c sub hfind hsub
          exact hS t tp c sub hfind hsub
      | some topic =>
        simp only [hft]
        refine ⟨?_, ?_, ?_⟩
        · intro c t tp hfind
          rw [memEdge_removeClientTopic]
          by_cases ht : tn = t
          · subst ht
            rw [findKey_insertKey_self] at hfind
            injection hfind with htp
            subst htp
            dsimp only
            by_cases hc : c = cid
            · subst hc
              rw [if_pos ⟨rfl, rfl⟩, findKey_eraseKey_self]
              simp
            · rw [if_neg (by simp [hc]), findKey_eraseKey_ne _ _ _ (fun hx => hc hx.symm)]
              exact hE c tn topic hft
          · rw [findKey_insertKey_ne _ _ _ _ ht] at hfind
            rw [if_neg (by intro hx; exact ht hx.2.symm)]
            exact hE c t tp hfind
        · intro c t hmem
          rw [memEdge_removeClientTopic] at hmem
          by_cases hcond : c = cid ∧ t = tn
          · rw [if_pos hcond] at hmem
            cases hmem
          · rw [if_neg hcond] at hmem
            have hold := hN c t hmem
            by_cases ht : tn = t
            · subst ht
              rw [findKey_insertKey_self]
              rfl
            · rw [findKey_insertKey_ne _ _ _ _ ht]
              exact hold
        · intro t tp c sub hfind hsub
          by_cases ht : tn = t
          · subst ht
            rw [findKey_insertKey_self] at hfind
            injection hfind with htp
            subst htp
            dsimp only at hsub
            exact hS tn topic c sub hft (findKey_some_of_eraseKey_some _ _ _ _ hsub)
          · rw [findKey_insertKey_ne _ _ _ _ ht] at hfind
            exact hS t tp c sub hfind hsub
    · have hin2 : (findKey inner tn).getD false = false := by
        cases hx : (findKey inner tn).getD false
        · rfl
        · exact absurd hx hin
      simpa [PubSubSystem.unsubscribe, hct, hin2] using ⟨hE, hN, hS⟩

theorem sysInv_deleteTopic (ps : PubSubSystem) (name : String)
    (freshID : Nat → String) (now : Nat) (h : SysInv ps) :
    SysInv (ps.deleteTopic name freshID now).2 := by
  obtain ⟨hE, hN, hS⟩ := h
  cases hfd : findKey ps.topics name with
  | none => simpa [PubSubSystem.deleteTopic, hfd] using ⟨hE, hN, hS⟩
  | some topic =>
    simp only [PubSubSystem.deleteTopic, hfd]
    refine ⟨?_, ?_, ?_⟩
    · intro c t tp hfind
      have ht : ¬ (t = name) := by
        intro hx
        rw [hx, findKey_eraseKey_self] at hfind
        cases hfind
      rw [findKey_eraseKey_ne _ _ _ (fun hx => ht hx.symm)] at hfind
      rw [evictLoop_memEdge, if_neg (by intro hx; exact ht hx.2)]
      exact hE c t tp hfind
    · intro c t hmem
      rw [evictLoop_memEdge] at hmem
      by_cases hcond : (∃ p ∈ topic.subscribers, p.2.clientID = c) ∧ t = name
      · rw [if_pos hcond] at hmem
        cases hmem
      · rw [if_neg hcond] at hmem
        have hold := hN c t hmem
        have ht : ¬ (t = name) := by
          intro hx
          subst hx
          apply hcond
          refine ⟨?_, rfl⟩
          have hsub : (findKey topic.subscribers c).isSome = true :=
            (hE c t topic hfd).1 hmem
          cases hx2 : findKey topic.subscribers c with
          | none => rw [hx2] at hsub; cases hsub
          | some sub =>
            exact ⟨(c, sub), mem_of_findKey_some _ _ _ hx2,
              hS t topic c sub hfd hx2⟩
        rw [findKey_eraseKey_ne _ _ _ (fun hx => ht hx.symm)]
        exact hold
    · intro t tp c sub hfind hsub
      have ht : ¬ (t = name) := by
        intro hx
        rw [hx, findKey_eraseKey_self] at hfind
        cases hfind
      rw [findKey_eraseKey_ne _ _ _ (fun hx => ht hx.symm)] at hfind
      exact hS t tp c sub hfind hsub

theorem sysInv_disconnect (ps : PubSubSystem) (cid : String) (h : SysInv ps) :
    SysInv (ps.disconnectClient cid) := by
  obtain ⟨hE, hN, hS⟩ := h
  cases hct : findKey ps.clientTopics cid with
  | none =>
    simp only [PubSubSystem.disconnectClient, hct]
    exact ⟨hE, hN, hS⟩
  | some topicsMap =>
    simp only [PubSubSystem.disconnectClient, hct]
    refine ⟨?_, ?_, ?_⟩
    · intro c t tp2 hfind2
      rw [foldl_removeSubEntry_findKey] at hfind2
      rw [memEdge_eraseKey]
      by_cases hcond : ∃ p ∈ topicsMap, p.1 = t
      · rw [if_pos hcond] at hfind2
        rw [Option.map_eq_some'] at hfind2
        obtain ⟨tp, hfind, htp2⟩ := hfind2
        subst htp2
        dsimp only
        by_cases hc : cid = c
        · subst hc
          rw [if_pos rfl, findKey_eraseKey_self]
          simp
        · rw [if_neg hc, findKey_eraseKey_ne _ _ _ hc]
          exact hE c t tp hfind
      · rw [if_neg hcond] at hfind2
        by_cases hc : cid = c
        · subst hc
          rw [if_pos rfl]
          constructor
          · intro hx
            cases hx
          · intro hsome
            exfalso
            have hmem : memEdge ps.clientTopics cid t = true :=
              (hE cid t tp2 hfind2).2 hsome
            rw [memEdge_some _ _ _ _ hct] at hmem
            cases hx2 : findKey topicsMap t with
            | none => rw [hx2] at hmem; cases hmem
            | some b =>
              exact hcond ⟨(t, b), mem_of_findKey_some _ _ _ hx2, rfl⟩
        · rw [if_neg hc]
          exact hE c t tp2 hfind2
    · intro c t hmem
      rw [memEdge_eraseKey] at hmem
      by_cases hc : cid = c
      · rw [if_pos hc] at hmem
        cases hmem
      · rw [if_neg hc] at hmem
        have hold := hN c t hmem
        rw [foldl_removeSubEntry_findKey]
        by_cases hcond : ∃ p ∈ topicsMap, p.1 = t
        · rw [if_pos hcond, Option.isSome_map']
          exact hold
        · rw [if_neg hcond]
          exact hold
    · intro t tp2 c sub hfind2 hsub
      rw [foldl_removeSubEntry_findKey] at hfind2
      by_cases hcond : ∃ p ∈ topicsMap, p.1 = t
      · rw [if_pos hcond, Option.map_eq_some'] at hfind2
        obtain ⟨tp, hfind, htp2⟩ := hfind2
        subst htp2
        dsimp only at hsub
        exact hS t tp c sub hfind (findKey_some_of_eraseKey_some _ _ _ _ hsub)
      · rw [if_neg hcond] at hfind2
        exact hS t tp2 c sub hfind2 hsub

theorem sysInv_apply (ps : PubSubSystem) (op : Op) (h : SysInv ps) :
    SysInv (ps.apply op) := by
  cases op with
  | createTopic name now => exact sysInv_createTopic ps name now h
  | deleteTopic name freshID now => exact sysInv_deleteTopic ps name freshID now h
  | subscribe c t n ch now => exact sysInv_subscribe ps c t n ch now h
  | unsubscribe c t => exact sysInv_unsubscribe ps c t h
  | publish t m s now => exact sysInv_publish ps t m s now h
  | disconnect c => exact sysInv_disconnect ps c h

theorem sysInv_run (ps : PubSubSystem) (ops : List Op) (h : SysInv ps) :
    SysInv (ps.run ops) := by
  induction ops generalizing ps with
  | nil => simpa [PubSubSystem.run] using h
  | cons op rest ih =>
    have hstep : ps.run (op :: rest) = (ps.apply op).run rest := by
      simp [PubSubSystem.run]
    rw [hstep]
    exact ih (ps.apply op) (sysInv_apply ps op h)

/-! ## The topic history is determined by the publish trace -/

theorem publishTrace_correct (t : String) (ops : List Op) :
    ∀ (ps : PubSubSystem) (acc : List EventResponse),
    (∀ topic, findKey ps.topics t = some topic →
      topic.messageHistory = (RingBuffer.new TopicHistoryBufferSize).pushMany acc) →
    ∀ topic, findKey (ps.run ops).topics t = some topic →
      topic.messageHistory =
        (RingBuffer.new TopicHistoryBufferSize).pushMany (publishTrace t ps acc ops) := by
  induction ops with
  | nil =>
    intro ps acc hbase topic hfind
    rw [publishTrace]
    exact hbase topic (by simpa [PubSubSystem.run] using hfind)
  | cons op rest ih =>
    intro ps acc hbase topic hfind
    have hstep : ps.run (op :: rest) = (ps.apply op).run rest := by
      simp [PubSubSystem.run]
    rw [hstep] at hfind
    cases op with
    | createTopic name nowc =>
      rw [publishTrace]
      refine ih _ _ ?_ topic hfind
      intro tp hfind2
      simp only [PubSubSystem.apply] at hfind2
      cases hex : findKey ps.topics name with
      | some tp0 =>
        simp only [PubSubSystem.createTopic, hex, Option.isSome_some, if_true] at hfind2
        simp only [hex, Option.isNone_some]
        have hcond : ¬ (name = t ∧ False) := by simp
        rw [if_neg (by simpa using hcond)]
        exact hbase tp hfind2
      | none =>
        simp only [PubSubSystem.createTopic, hex, Option.isSome_none, Bool.false_eq_true,
          if_false] at hfind2
        simp only [hex, Option.isNone_none]
        by_cases hn : name = t
        · subst hn
          rw [findKey_insertKey_self] at hfind2
          injection hfind2 with htp
          subst htp
          rw [if_pos ⟨rfl, trivial⟩]
          rfl
        · rw [findKey_insertKey_ne _ _ _ _ hn] at hfind2
          rw [if_neg (by simp [hn])]
          exact hbase tp hfind2
    | deleteTopic name freshID nowc =>
      rw [publishTrace]
      refine ih _ _ ?_ topic hfind
      intro tp hfind2
      simp only [PubSubSystem.apply] at hfind2
      cases hex : findKey ps.topics name with
      | none =>
        simp only [PubSubSystem.deleteTopic, hex] at hfind2
        exact hbase tp hfind2
      | some tp0 =>
        simp only [PubSubSystem.deleteTopic, hex] at hfind2
        exact hbase tp (findKey_some_of_eraseKey_some _ _ _ _ hfind2)
    | subscribe c tn n ch nowc =>
      rw [publishTrace]
      refine ih _ _ ?_ topic hfind
      intro tp hfind2
      simp only [PubSubSystem.apply] at hfind2
      cases hex : findKey ps.topics tn with
      | none =>
        simp only [PubSubSystem.subscribe, hex] at hfind2
        exact hbase tp hfind2
      | some tp0 =>
        simp only [PubSubSystem.subscribe, hex] at hfind2
        by_cases hn : tn = t
        · subst hn
          rw [findKey_insertKey_self] at hfind2
          injection hfind2 with htp
          subst htp
          exact hbase tp0 hex
        · rw [findKey_insertKey_ne _ _ _ _ hn] at hfind2
          exact hbase tp hfind2
    | unsubscribe c tn =>
      rw [publishTrace]
      refine ih _ _ ?_ topic hfind
      intro tp hfind2
      simp only [PubSubSystem.apply] at hfind2
      cases hct : findKey ps.clientTopics c with
      | none =>
        simp only [PubSubSystem.unsubscribe, hct] at hfind2
        exact hbase tp hfind2
      | some inner =>
        by_cases hin : (findKey inner tn).getD false = true
        · simp only [PubSubSystem.unsubscribe, hct, hin, Option.getD_some, Bool.not_true,
            Bool.false_eq_true, if_false] at hfind2
          cases hft : findKey ps.topics tn with
          | none =>
            simp only [hft] at hfind2
            exact hbase tp hfind2
          | some tp0 =>
            simp only [hft] at hfind2
            by_cases hn : tn = t
            · subst hn
              rw [findKey_insertKey_self] at hfind2
              injection hfind2 with htp
              subst htp
              exact hbase tp0 hft
            · rw [findKey_insertKey_ne _ _ _ _ hn] at hfind2
              exact hbase tp hfind2
        · have hin2 : (findKey inner tn).getD false = false := by
            cases hx : (findKey inner tn).getD false
            · rfl
            · exact absurd hx hin
          simp only [PubSubSystem.unsubscribe, hct, hin2, Option.getD_some, Bool.not_false,
            if_true] at hfind2
          exact hbase tp hfind2
    | publish tn msg s nowc =>
      rw [publishTrace]
      refine ih _ _ ?_ topic hfind
      intro tp hfind2
      simp only [PubSubSystem.apply] at hfind2
      cases hex : findKey ps.topics tn with
      | none =>
        simp only [PubSubSystem.publish, hex] at hfind2
        simp only [hex, Option.isSome_none]
        rw [if_neg (by simp)]
        exact hbase tp hfind2
      | some tp0 =>
        simp only [PubSubSystem.publish, hex] at hfind2
        simp only [hex, Option.isSome_some]
        by_cases hn : tn = t
        · subst hn
          rw [findKey_insertKey_self] at hfind2
          injection hfind2 with htp
          subst htp
          rw [if_pos ⟨rfl, trivial⟩, RingBuffer.pushMany_append_one]
          dsimp only
          rw [hbase tp0 hex]
        · rw [findKey_insertKey_ne _ _ _ _ hn] at hfind2
          rw [if_neg (by simp [hn])]
          exact hbase tp hfind2
    | disconnect c =>
      rw [publishTrace]
      refine ih _ _ ?_ topic hfind
      intro tp hfind2
      simp only [PubSubSystem.apply, PubSubSystem.disconnectClient] at hfind2
      cases hct : findKey ps.clientTopics c with
      | none =>
        simp only [hct] at hfind2
        exact hbase tp hfind2
      | some topicsMap =>
        simp only [hct] at hfind2
        rw [foldl_removeSubEntry_findKey] at hfind2
        by_cases hcond : ∃ p ∈ topicsMap, p.1 = t
        · rw [if_pos hcond, Option.map_eq_some'] at hfind2
          obtain ⟨tp1, hfind1, htp⟩ := hfind2
          subst htp
          dsimp only
          exact hbase tp1 hfind1
        · rw [if_neg hcond] at hfind2
          exact hbase tp hfind2

/-! ## Claim theorems -/

/-- Claim C3: Publish(topic, message, sender) returns the not-found error and
leaves the state unchanged when the topic is absent; when the topic exists it
returns Ok (no error), increments the topic message count by exactly one, and
pushes the event onto the topic history ring, with the subscriber set
untouched — in particular also when there are zero subscribers. -/
theorem publish_spec_c3 (ps : PubSubSystem) (tn : String) (msg : MessageData)
    (sender : String) (now : Nat) :
    (findKey ps.topics tn = none →
      ps.publish tn msg sender now = (some s!"topic {tn} not found", ps)) ∧
    (∀ topic, findKey ps.topics tn = some topic →
      (ps.publish tn msg sender now).1 = none ∧
      ∃ topic2, findKey (ps.publish tn msg sender now).2.topics tn = some topic2 ∧
        topic2.messageCount = topic.messageCount + 1 ∧
        topic2.messageHistory = topic.messageHistory.push (eventOf tn msg now) ∧
        topic2.subscribers = topic.subscribers) := by
  constructor
  · intro h
    simp [PubSubSystem.publish, h]
  · intro topic h
    simp only [PubSubSystem.publish, h]
    refine ⟨by trivial, _, findKey_insertKey_self _ _ _, by trivial, by trivial, by trivial⟩

/-- Witness for C3 at concrete inputs: publishing to an absent topic leaves
the fresh system unchanged, and publishing to an existing topic succeeds. -/
theorem publish_spec_c3_witness :
    ((newPubSubSystem 0).publish "T" { id := "u", payload := .json "x" } "c" 1).2
      = newPubSubSystem 0 ∧
    (((newPubSubSystem 0).createTopic "T" 0).2.publish "T"
      { id := "u", payload := .json "x" } "c" 1).1 = none :=
  ⟨congrArg Prod.snd
    ((publish_spec_c3 (newPubSubSystem 0) "T" { id := "u", payload := .json "x" } "c" 1).1 rfl),
   ((publish_spec_c3 (((newPubSubSystem 0).createTopic "T" 0).2) "T"
      { id := "u", payload := .json "x" } "c" 1).2 _ rfl).1⟩

/-- Claim C7: GetLastN(n) returns the most recent min(n, size) events of the
buffer in FIFO order (a suffix of the chronological contents), returns empty
for n at most 0 or an empty buffer, and returns the entire contents when n
exceeds the size. It is a pure read: the buffer value is not changed. -/
theorem getLastN_spec_c7 (rb : RingBuffer) (n : Int) (h : rb.Wf) :
    rb.getLastN n =
      (if n ≤ 0 then [] else rb.toList.drop (rb.size - min n.toNat rb.size)) ∧
    (n ≤ 0 → rb.getLastN n = []) ∧
    (rb.size = 0 → rb.getLastN n = []) ∧
    ((rb.size : Int) ≤ n → rb.getLastN n = rb.toList) ∧
    (0 < n → (rb.getLastN n).length = min n.toNat rb.size) := by
  have key := RingBuffer.getLastN_eq rb n h
  refine ⟨key, ?_, ?_, ?_, ?_⟩
  · intro hn
    rw [key, if_pos hn]
  · intro hs
    rw [key]
    have htl : rb.toList = [] := by
      rw [RingBuffer.toList, hs]
      rfl
    rw [htl]
    simp
  · intro hn
    rw [key]
    by_cases hle : n ≤ 0
    · have hs : rb.size = 0 := by omega
      rw [if_pos hle, RingBuffer.toList, hs]
      rfl
    · rw [if_neg hle]
      have hmin : min n.toNat rb.size = rb.size := by omega
      rw [hmin]
      simp
  · intro hn
    rw [key, if_neg (by omega)]
    rw [List.length_drop, RingBuffer.toList_length]
    omega

/-- Witness for C7: the suffix equation instantiated on a concrete buffer
holding two events, queried with n = 5. -/
theorem getLastN_spec_c7_witness :
    ((RingBuffer.new 3).pushMany
        [{ type := "event", topic := "A", message := { id := "1", payload := .json "p" },
           timestamp := 1 },
         { type := "event", topic := "A", message := { id := "2", payload := .json "q" },
           timestamp := 2 }]).getLastN 5 =
      (if (5 : Int) ≤ 0 then [] else
        ((RingBuffer.new 3).pushMany
          [{ type := "event", topic := "A", message := { id := "1", payload := .json "p" },
             timestamp := 1 },
           { type := "event", topic := "A", message := { id := "2", payload := .json "q" },
             timestamp := 2 }]).toList.drop
          (((RingBuffer.new 3).pushMany
            [{ type := "event", topic := "A", message := { id := "1", payload := .json "p" },
               timestamp := 1 },
             { type := "event", topic := "A", message := { id := "2", payload := .json "q" },
               timestamp := 2 }]).size -
            min (Int.toNat 5)
              ((RingBuffer.new 3).pushMany
                [{ type := "event", topic := "A", message := { id := "1", payload := .json "p" },
                   timestamp := 1 },
                 { type := "event", topic := "A", message := { id := "2", payload := .json "q" },
                   timestamp := 2 }]).size)) :=
  (getLastN_spec_c7 _ 5 (by decide)).1

/-- Claim C8: Push never fails (it is total): below capacity it appends the
event and increments the size; at capacity it drops the oldest element and
keeps the size at capacity; and on a capacity-1 buffer the single readable
element after any push is the event just pushed. -/
theorem push_spec_c8 (rb : RingBuffer) (e : EventResponse) (h : rb.Wf) :
    (rb.size < rb.capacity →
      (rb.push e).toList = rb.toList ++ [e] ∧ (rb.push e).size = rb.size + 1) ∧
    (rb.size = rb.capacity →
      (rb.push e).toList = rb.toList.drop 1 ++ [e] ∧ (rb.push e).size = rb.size) ∧
    (rb.capacity = 1 → (rb.push e).toList = [e]) := by
  have htp := RingBuffer.toList_push rb e h
  have hsp := RingBuffer.size_push rb e
  obtain ⟨hcap, hbuf, hhead, htail, hsize, hfull⟩ := h
  refine ⟨?_, ?_, ?_⟩
  · intro hlt
    have hne : ¬ (rb.size = rb.capacity) := by omega
    have hfl : rb.full = false := by
      cases hx : rb.full
      · rfl
      · exact absurd (hfull.1 (by simp [hx])) hne
    rw [htp, if_neg hne, hsp, hfl]
    exact ⟨rfl, rfl⟩
  · intro heq
    have hfl : rb.full = true := hfull.2 heq
    rw [htp, if_pos heq, hsp, hfl]
    exact ⟨rfl, rfl⟩
  · intro hone
    rw [htp]
    have hlen : rb.toList.length = rb.size := RingBuffer.toList_length rb
    by_cases hsz : rb.size = rb.capacity
    · rw [if_pos hsz]
      have : rb.toList.length = 1 := by omega
      rw [List.drop_eq_nil_of_le (by omega)]
      rfl
    · rw [if_neg hsz]
      have : rb.toList.length = 0 := by omega
      rw [List.eq_nil_of_length_eq_zero this]
      rfl

/-- Witness for C8: pushing onto a concrete non-full buffer appends. -/
theorem push_spec_c8_witness :
    (((RingBuffer.new 2).push
        { type := "event", topic := "A", message := { id := "1", payload := .json "p" },
          timestamp := 1 }).toList
      = (RingBuffer.new 2).toList ++
        [{ type := "event", topic := "A", message := { id := "1", payload := .json "p" },
           timestamp := 1 }]) :=
  ((push_spec_c8 (RingBuffer.new 2) _ (by decide)).1 (by decide)).1

/-- Claim C10: in a state where client c has topic t in its topic set but t
is absent from the topics registry, Unsubscribe(c, t) returns the
topic-not-found error and has nevertheless already removed t from the
client topic set (dropping the client entry when the set became empty): the
error does not imply the state is unchanged. -/
theorem unsubscribe_partial_c10 (ps : PubSubSystem) (cid tn : String)
    (hmem : memEdge ps.clientTopics cid tn = true)
    (htopic : findKey ps.topics tn = none) :
    (ps.unsubscribe cid tn).1 = some s!"topic {tn} not found" ∧
    (ps.unsubscribe cid tn).2.clientTopics = removeClientTopic ps.clientTopics cid tn ∧
    memEdge (ps.unsubscribe cid tn).2.clientTopics cid tn = false ∧
    (ps.unsubscribe cid tn).2.topics = ps.topics := by
  cases hct : findKey ps.clientTopics cid with
  | none =>
    rw [memEdge_none _ _ _ hct] at hmem
    cases hmem
  | some inner =>
    have hin : (findKey inner tn).getD false = true := by
      rw [memEdge_some _ _ _ _ hct] at hmem
      exact hmem
    have hCT : (if (eraseKey inner tn).isEmpty = true
          then eraseKey ps.clientTopics cid
          else insertKey ps.clientTopics cid (eraseKey inner tn))
        = removeClientTopic ps.clientTopics cid tn := by
      simp only [removeClientTopic, hct]
    simp only [PubSubSystem.unsubscribe, hct, hin, Option.getD_some, Bool.not_true,
      Bool.false_eq_true, if_false, hCT, htopic]
    refine ⟨by trivial, by trivial, ?_, by trivial⟩
    rw [memEdge_removeClientTopic, if_pos ⟨rfl, rfl⟩]

/-- Witness for C10 at a concrete state with a dangling edge. -/
theorem unsubscribe_partial_c10_witness :
    ((⟨[], [], [("c", [("T", true)])], 0⟩ : PubSubSystem).unsubscribe "c" "T").1
      = some "topic T not found" ∧
    memEdge ((⟨[], [], [("c", [("T", true)])], 0⟩ : PubSubSystem).unsubscribe
        "c" "T").2.clientTopics "c" "T"
      = false := by
  have h := unsubscribe_partial_c10
    (⟨[], [], [("c", [("T", true)])], 0⟩ : PubSubSystem) "c" "T" (by decide) rfl
  refine ⟨?_, h.2.2.1⟩
  rw [h.1]
  rfl

/-- Claim C4: after every sequence of completed core operations from a fresh
system, for all client ids c and existing topics t: t is in the topic set of
c exactly when c is a key of the subscriber map of t. -/
theorem edge_invariant_c4 (now : Nat) (ops : List Op) :
    EdgeInv ((newPubSubSystem now).run ops) :=
  (sysInv_run _ ops (sysInv_new now)).1

/-- Witness for C4 on a concrete operation sequence. -/
theorem edge_invariant_c4_witness :
    EdgeInv ((newPubSubSystem 0).run
      [Op.createTopic "T" 0, Op.subscribe "c1" "T" 0 { buf := [], cap := 8 } 1]) :=
  edge_invariant_c4 0 _

/-- Claim C5: along every operation sequence from a fresh system, every
existing topic's history ring holds at most H = 1000 events, and its
chronological contents are exactly the most recent events published to the
topic, in publish order — the length-capped suffix of the full publish
trace since the topic's creation. -/
theorem history_suffix_c5 (now : Nat) (ops : List Op) (t : String) (topic : Topic)
    (hfind : findKey ((newPubSubSystem now).run ops).topics t = some topic) :
    topic.messageHistory.size ≤ TopicHistoryBufferSize ∧
    topic.messageHistory.toList =
      takeLast (publishTrace t (newPubSubSystem now) [] ops) TopicHistoryBufferSize := by
  have hbase : ∀ tp, findKey (newPubSubSystem now).topics t = some tp →
      tp.messageHistory = (RingBuffer.new TopicHistoryBufferSize).pushMany [] := by
    intro tp hx
    simp [newPubSubSystem, findKey] at hx
  have hkey := publishTrace_correct t ops (newPubSubSystem now) [] hbase topic hfind
  have hwf := RingBuffer.wf_pushMany (RingBuffer.new TopicHistoryBufferSize)
      (publishTrace t (newPubSubSystem now) [] ops)
      (RingBuffer.wf_new _ (by decide))
  constructor
  · rw [hkey]
    have hle := hwf.2.2.2.2.1
    have hcap : ((RingBuffer.new TopicHistoryBufferSize).pushMany
        (publishTrace t (newPubSubSystem now) [] ops)).capacity
        = TopicHistoryBufferSize := by
      rw [RingBuffer.capacity_pushMany]
      rfl
    omega
  · rw [hkey, RingBuffer.toList_pushMany_new _ _ (by decide)]

/-- Witness for C5: a fresh topic that received one publish. -/
theorem history_suffix_c5_witness :
    ((findKey ((newPubSubSystem 0).run [Op.createTopic "T" 0,
        Op.publish "T" { id := "u1", payload := .json "x" } "c" 1]).topics "T").getD
        default).messageHistory.size ≤ TopicHistoryBufferSize ∧
    ((findKey ((newPubSubSystem 0).run [Op.createTopic "T" 0,
        Op.publish "T" { id := "u1", payload := .json "x" } "c" 1]).topics "T").getD
        default).messageHistory.toList =
      takeLast (publishTrace "T" (newPubSubSystem 0) []
        [Op.createTopic "T" 0, Op.publish "T" { id := "u1", payload := .json "x" } "c" 1])
        TopicHistoryBufferSize :=
  history_suffix_c5 0 _ "T" _ rfl

/-- Claim C6: when DeleteTopic(t) succeeds (returns Deleted), the topic is
absent from the topics registry of the resulting state and no client's topic
set contains t. The hypothesis is the system invariant, which holds in every
reachable state. -/
theorem deleteTopic_scrubs_c6 (ps : PubSubSystem) (t : String)
    (freshID : Nat → String) (now : Nat) (hInv : SysInv ps)
    (hok : (ps.deleteTopic t freshID now).1 = none) :
    findKey (ps.deleteTopic t freshID now).2.topics t = none ∧
    ∀ c, memEdge (ps.deleteTopic t freshID now).2.clientTopics c t = false := by
  obtain ⟨hE, hN, hS⟩ := hInv
  cases hfd : findKey ps.topics t with
  | none =>
    simp only [PubSubSystem.deleteTopic, hfd] at hok
    cases hok
  | some topic =>
    simp only [PubSubSystem.deleteTopic, hfd]
    constructor
    · exact findKey_eraseKey_self _ _
    · intro c
      rw [evictLoop_memEdge]
      by_cases hcond : (∃ p ∈ topic.subscribers, p.2.clientID = c) ∧ t = t
      · rw [if_pos hcond]
      · rw [if_neg hcond]
        cases hx : memEdge ps.clientTopics c t with
        | false => rfl
        | true =>
          exfalso
          apply hcond
          refine ⟨?_, rfl⟩
          have hsub : (findKey topic.subscribers c).isSome = true :=
            (hE c t topic hfd).1 hx
          cases hx2 : findKey topic.subscribers c with
          | none =>
            rw [hx2] at hsub
            cases hsub
          | some sub =>
            exact ⟨(c, sub), mem_of_findKey_some _ _ _ hx2, hS t topic c sub hfd hx2⟩

/-- Witness for C6 on a concrete reachable state with one subscriber. -/
theorem deleteTopic_scrubs_c6_witness :
    findKey (((newPubSubSystem 0).run [Op.createTopic "T" 0,
        Op.subscribe "c1" "T" 0 { buf := [], cap := 8 } 1]).deleteTopic "T"
        (fun _ => "u0") 2).2.topics "T" = none ∧
    memEdge (((newPubSubSystem 0).run [Op.createTopic "T" 0,
        Op.subscribe "c1" "T" 0 { buf := [], cap := 8 } 1]).deleteTopic "T"
        (fun _ => "u0") 2).2.clientTopics "c1" "T" = false := by
  have h := deleteTopic_scrubs_c6 ((newPubSubSystem 0).run [Op.createTopic "T" 0,
      Op.subscribe "c1" "T" 0 { buf := [], cap := 8 } 1]) "T" (fun _ => "u0") 2
      (sysInv_run _ _ (sysInv_new 0)) rfl
  exact ⟨h.1, h.2 "c1"⟩

/-- Claim C1 (code bug exhibit): Publish fans out to every subscriber
including the sender. In the concrete run below, client c1 subscribes to
topic T and then publishes to T; the publish succeeds and the event lands in
c1's own write channel, although the Publish doc comment, the README
(no echo-back) and TestNoEchoBack all state the sender receives no event. -/
theorem publish_delivers_to_sender_c1 :
    ((((newPubSubSystem 0).createTopic "T" 0).2.subscribe "c1" "T" 0
        { buf := [], cap := 10 } 1).2.2.publish "T"
        { id := "11111111-2222-4333-8444-555555555555", payload := .json "self" }
        "c1" 2).1 = none ∧
    (findKey ((((newPubSubSystem 0).createTopic "T" 0).2.subscribe "c1" "T" 0
        { buf := [], cap := 10 } 1).2.2.publish "T"
        { id := "11111111-2222-4333-8444-555555555555", payload := .json "self" }
        "c1" 2).2.clients "c1").map (fun cl => cl.writeChan.buf)
      = some [eventOf "T"
          { id := "11111111-2222-4333-8444-555555555555", payload := .json "self" } 2] :=
  ⟨rfl, rfl⟩

/-- Claim C2 (counterexample): a subscribe frame with an empty request_id is
answered with an error frame whose code is PROCESSING_ERROR, not BAD_REQUEST
(the handler's BAD_REQUEST ErrorData is returned as a Go error and re-wrapped
by processPump). The core state is unchanged. -/
theorem invalid_request_processing_error_c2 :
    ((Client.newClient ((newPubSubSystem 0).createTopic "T" 0).2).processMessage
        (.sub ⟨"subscribe", "T", "c1", 0, ""⟩) 5).pubsub
      = ((newPubSubSystem 0).createTopic "T" 0).2 ∧
    ((Client.newClient ((newPubSubSystem 0).createTopic "T" 0).2).processMessage
        (.sub ⟨"subscribe", "T", "c1", 0, ""⟩) 5).send.buf
      = [⟨"error", "", ⟨"", .errData ⟨"PROCESSING_ERROR", "request_id is required"⟩⟩, 5⟩] ∧
    ("PROCESSING_ERROR" : String) ≠ "BAD_REQUEST" :=
  ⟨rfl, rfl, by decide⟩

/-- Claim C2 (amended): every invalid inbound request is answered with a
single error frame and leaves the core state unchanged; the frame's code is
BAD_REQUEST for a missing or non-UUID message.id on publish (sent directly by
the handler), and PROCESSING_ERROR carrying the validation message for a
missing request_id or missing client_id (the handler's BAD_REQUEST ErrorData
is wrapped by the processing loop). -/
theorem invalid_request_replies_error_c2 (c : Client) (now : Nat)
    (hroom : c.send.buf.length < c.send.cap) :
    (∀ r : SubscribeRequest, r.requestID = "" →
      (c.processMessage (.sub r) now).pubsub = c.pubsub ∧
      (c.processMessage (.sub r) now).send.buf = c.send.buf ++
        [⟨"error", "", ⟨"", .errData ⟨"PROCESSING_ERROR", "request_id is required"⟩⟩, now⟩]) ∧
    (∀ r : UnsubscribeRequest, r.requestID = "" →
      (c.processMessage (.unsub r) now).pubsub = c.pubsub ∧
      (c.processMessage (.unsub r) now).send.buf = c.send.buf ++
        [⟨"error", "", ⟨"", .errData ⟨"PROCESSING_ERROR", "request_id is required"⟩⟩, now⟩]) ∧
    (∀ r : PublishRequest, r.requestID = "" →
      (c.processMessage (.pub r) now).pubsub = c.pubsub ∧
      (c.processMessage (.pub r) now).send.buf = c.send.buf ++
        [⟨"error", "", ⟨"", .errData ⟨"PROCESSING_ERROR", "request_id is required"⟩⟩, now⟩]) ∧
    (∀ r : PingRequest, r.requestID = "" →
      (c.processMessage (.ping r) now).pubsub = c.pubsub ∧
      (c.processMessage (.ping r) now).send.buf = c.send.buf ++
        [⟨"error", "", ⟨"", .errData ⟨"PROCESSING_ERROR", "request_id is required"⟩⟩, now⟩]) ∧
    (∀ r : SubscribeRequest, r.requestID ≠ "" → r.clientID = "" →
      (c.processMessage (.sub r) now).pubsub = c.pubsub ∧
      (c.processMessage (.sub r) now).send.buf = c.send.buf ++
        [⟨"error", "", ⟨"", .errData ⟨"PROCESSING_ERROR", "client_id is required"⟩⟩, now⟩]) ∧
    (∀ r : UnsubscribeRequest, r.requestID ≠ "" → r.clientID = "" →
      (c.processMessage (.unsub r) now).pubsub = c.pubsub ∧
      (c.processMessage (.unsub r) now).send.buf = c.send.buf ++
        [⟨"error", "", ⟨"", .errData ⟨"PROCESSING_ERROR", "client_id is required"⟩⟩, now⟩]) ∧
    (∀ r : PublishRequest, r.requestID ≠ "" → c.clientID = "" → r.clientID = "" →
      (c.processMessage (.pub r) now).pubsub = c.pubsub ∧
      (c.processMessage (.pub r) now).send.buf = c.send.buf ++
        [⟨"error", "", ⟨"", .errData ⟨"PROCESSING_ERROR",
          "client_id is required for first message on this connection"⟩⟩, now⟩]) ∧
    (∀ r : PublishRequest, r.requestID ≠ "" →
      ¬ (c.clientID = "" ∧ r.clientID = "") →
      ¬ (c.clientID ≠ "" ∧ r.clientID ≠ "" ∧ c.clientID ≠ r.clientID) →
      uuidParseOk r.message.id = false →
      (c.processMessage (.pub r) now).pubsub = c.pubsub ∧
      (c.processMessage (.pub r) now).send.buf = c.send.buf ++
        [⟨"error", "", ⟨r.requestID,
          .errData ⟨"BAD_REQUEST", "message.id must be a valid UUID"⟩⟩, now⟩]) := by
  refine ⟨?_, ?_, ?_, ?_, ?_, ?_, ?_, ?_⟩
  · intro r hr
    simp [Client.processMessage, Client.handleMessage, Client.handleSubscribe,
      Client.sendMessage, hr, hroom]
  · intro r hr
    simp [Client.processMessage, Client.handleMessage, Client.handleUnsubscribe,
      Client.sendMessage, hr, hroom]
  · intro r hr
    simp [Client.processMessage, Client.handleMessage, Client.handlePublish,
      Client.sendMessage, hr, hroom]
  · intro r hr
    simp [Client.processMessage, Client.handleMessage, Client.handlePing,
      Client.sendMessage, hr, hroom]
  · intro r hr hcid
    simp [Client.processMessage, Client.handleMessage, Client.handleSubscribe,
      Client.sendMessage, hr, hcid, hroom]
  · intro r hr hcid
    simp [Client.processMessage, Client.handleMessage, Client.handleUnsubscribe,
      Client.sendMessage, hr, hcid, hroom]
  · intro r hr hc hcid
    simp [Client.processMessage, Client.handleMessage, Client.handlePublish,
      Client.sendMessage, hr, hc, hcid, hroom]
  · intro r hr h1 h2 h3
    by_cases hcid : c.clientID = ""
    · have hrc : r.clientID ≠ "" := fun hx => h1 ⟨hcid, hx⟩
      by_cases hid : r.message.id = ""
      · simp [Client.processMessage, Client.handleMessage, Client.handlePublish,
          Client.sendMessage, hr, hcid, hrc, hid, hroom]
      · simp [Client.processMessage, Client.handleMessage, Client.handlePublish,
          Client.sendMessage, hr, hcid, hrc, hid, h3, hroom]
    · have hcond : ¬ (¬ r.clientID = "" ∧ ¬ c.clientID = r.clientID) :=
        fun hx => h2 ⟨hcid, hx.1, hx.2⟩
      by_cases hid : r.message.id = ""
      · simp [Client.processMessage, Client.handleMessage, Client.handlePublish,
          Client.sendMessage, hr, hcid, hcond, hid, hroom]
      · simp [Client.processMessage, Client.handleMessage, Client.handlePublish,
          Client.sendMessage, hr, hcid, hcond, hid, h3, hroom]

/-- Witness for the amended C2 on a fresh session. -/
theorem invalid_request_replies_error_c2_witness :
    ((Client.newClient (newPubSubSystem 0)).processMessage
        (.sub ⟨"subscribe", "T", "c1", 0, ""⟩) 5).pubsub
      = (Client.newClient (newPubSubSystem 0)).pubsub :=
  (((invalid_request_replies_error_c2 (Client.newClient (newPubSubSystem 0)) 5
      (by decide)).1 ⟨"subscribe", "T", "c1", 0, ""⟩ rfl)).1

/-- Claim C9: two consecutive Subscribe calls for the same client and topic
are equivalent to the single second call: the subscription edge (clientTopics
and the topic's subscriber map) is left exactly as after one call, and only
the outbox channel binding together with connected and last_active are
refreshed to the values supplied to the second call. The full return triple
coincides. -/
theorem subscribe_idempotent_c9 (ps : PubSubSystem) (cid tn : String) (n : Int)
    (ch1 ch2 : Chan) (now1 now2 : Nat)
    (h : (findKey ps.topics tn).isSome = true) :
    ((ps.subscribe cid tn n ch1 now1).2.2).subscribe cid tn n ch2 now2
      = ps.subscribe cid tn n ch2 now2 := by
  cases hfd : findKey ps.topics tn with
  | none =>
    rw [hfd] at h
    cases h
  | some topic =>
    cases hcl : findKey ps.clients cid with
    | none =>
      simp [PubSubSystem.subscribe, hfd, findKey_insertKey_self, insertKey_insertKey, hcl]
    | some cl =>
      simp [PubSubSystem.subscribe, hfd, findKey_insertKey_self, insertKey_insertKey, hcl]

/-- Witness for C9 on a fresh topic. -/
theorem subscribe_idempotent_c9_witness :
    ((((newPubSubSystem 0).createTopic "T" 0).2.subscribe "c1" "T" 0
        { buf := [], cap := 4 } 1).2.2).subscribe "c1" "T" 0 { buf := [], cap := 4 } 2
      = ((newPubSubSystem 0).createTopic "T" 0).2.subscribe "c1" "T" 0
        { buf := [], cap := 4 } 2 :=
  subscribe_idempotent_c9 _ "c1" "T" 0 _ _ 1 2 (by decide)

end PubSub
